import Mathlib

/-!
File-Manager: the chunk transfer engine, its RPC facade and the gateway client

A shallow embedding of

* `filemanager/filmanager/internal/services/filemanager/filemanager.go` (the engine:
  `GetFile`, `PostFile`, `PutFile`, `DeleteFile`, `checkDirToDelete`),
* `filemanager/filmanager/internal/grpc/server.go` (the RPC facade `serverAPI`),
* `gateaway/internal/clients/fm/grpc/grpc.go` (the gateway client),
* `gateaway/internal/handlers/http_handlers/{get,post,put}.go` and
  `gateway/internal/handlers/http_handlers/delete.go` (the HTTP bridge),

together with a small model of the parts of the Go standard library the code calls
(`os.Root`, `os.Remove`, `os.ReadDir`, `context.Context`, `fs.ValidPath`,
`filepath.Localize`).

Everything the environment decides (how a name resolves, whether a read, a write, a send or a
receive fails, when the deadline fires) is an explicit argument, so each function below is a
pure, executable function of its inputs.
-/

set_option autoImplicit false

/-! ## The filesystem -/

/-- A byte of file payload. The engine never computes with bytes, it only moves them. -/
abbrev Byte := Nat

/-- An absolute location on the host: the directory elements from the top of the filesystem. -/
abbrev AbsPath := List String

/-- What sits at a location: a regular file with its bytes, or a directory. -/
inductive Node where
  | file (content : List Byte)
  | dir
  deriving DecidableEq, Repr

/-- The host filesystem: an association list from locations to nodes. -/
abbrev Disk := List (AbsPath × Node)

/-- Looks a location up; the first entry for it counts. -/
def Disk.get : Disk → AbsPath → Option Node
  | [], _ => none
  | (k', n) :: rest, k => if k' = k then some n else Disk.get rest k

/-- Drops every entry for a location. -/
def Disk.erase : Disk → AbsPath → Disk
  | [], _ => []
  | (k', n) :: rest, k => if k' = k then Disk.erase rest k else (k', n) :: Disk.erase rest k

/-- Binds a location to a node, replacing what was there. -/
def Disk.put (d : Disk) (k : AbsPath) (n : Node) : Disk :=
  (k, n) :: Disk.erase d k

/-- The locations stored directly inside directory `k`. -/
def Disk.children (d : Disk) (k : AbsPath) : List AbsPath :=
  (d.filter (fun e => decide (e.1 ≠ [] ∧ e.1.dropLast = k))).map Prod.fst

/-- Whether `k` is a directory; the top of the filesystem always is. -/
def Disk.isDir (d : Disk) (k : AbsPath) : Bool :=
  decide (k = []) || decide (Disk.get d k = some Node.dir)

/-- How a file name given to the service resolves on the host.
`underRoot` is the resolution done by the methods of the `*os.Root` the engine holds
(`none`: the name is rejected because it leaves the root);
`underCwd` is the resolution done by the package-level functions of `os`
(`os.Remove`, `os.ReadDir`), which is relative to the process working directory. -/
structure Resolver where
  underRoot : String → Option AbsPath
  underCwd : String → Option AbsPath

/-- A change made to the filesystem. -/
inductive FsOp where
  | create (k : AbsPath)
  | write (k : AbsPath) (bytes : List Byte)
  | remove (k : AbsPath)
  deriving DecidableEq, Repr

/-- The state the engine runs against: the filesystem and the record of every change made. -/
structure World where
  disk : Disk
  ops : List FsOp
  deriving DecidableEq, Repr

/-- Errors of filesystem calls, told apart the way the engine does with
`errors.As(err, &pathError)`. Every failure of the modelled calls is a `*fs.PathError`. -/
inductive FsErr where
  | pathError
  | other
  deriving DecidableEq, Repr

deriving instance DecidableEq for Except

/-- The part of `fs.FileInfo` the engine looks at. -/
structure FileInfo where
  isDir : Bool
  size : Nat
  deriving DecidableEq, Repr

/-- Models `(*os.Root).Stat`. -/
def Root.Stat (env : Resolver) (d : Disk) (name : String) : Except FsErr FileInfo :=
  match env.underRoot name with
  | none => .error .pathError
  | some k =>
    match Disk.get d k with
    | none => .error .pathError
    | some (.file c) => .ok ⟨false, c.length⟩
    | some .dir => .ok ⟨true, 0⟩

/-- Models `(*os.Root).Open`: the handle is the location opened. -/
def Root.Open (env : Resolver) (d : Disk) (name : String) : Except FsErr AbsPath :=
  match env.underRoot name with
  | none => .error .pathError
  | some k =>
    match Disk.get d k with
    | none => .error .pathError
    | some _ => .ok k

/-- Models `(*os.Root).Create` (`O_RDWR|O_CREATE|O_TRUNC`): an existing regular file is
truncated, a missing one is created empty; the call fails on a name leaving the root, on a
directory and when the parent directory of a missing file does not exist. -/
def Root.Create (env : Resolver) (w : World) (name : String) : Except FsErr (AbsPath × World) :=
  match env.underRoot name with
  | none => .error .pathError
  | some k =>
    match Disk.get w.disk k with
    | some .dir => .error .pathError
    | some (.file _) =>
      .ok (k, { disk := Disk.put w.disk k (.file []), ops := w.ops ++ [.create k] })
    | none =>
      if k ≠ [] ∧ Disk.isDir w.disk k.dropLast = true then
        .ok (k, { disk := Disk.put w.disk k (.file []), ops := w.ops ++ [.create k] })
      else .error .pathError

/-- Removal of the entry at a location: fails when nothing is there or when it is a
directory that still has entries. -/
def World.removeAt (w : World) (k : AbsPath) : Except FsErr World :=
  match Disk.get w.disk k with
  | none => .error .pathError
  | some (.file _) => .ok { disk := Disk.erase w.disk k, ops := w.ops ++ [.remove k] }
  | some .dir =>
    if Disk.children w.disk k = [] then
      .ok { disk := Disk.erase w.disk k, ops := w.ops ++ [.remove k] }
    else .error .pathError

/-- Models `(*os.Root).Remove`. -/
def Root.Remove (env : Resolver) (w : World) (name : String) : Except FsErr World :=
  match env.underRoot name with
  | none => .error .pathError
  | some k => World.removeAt w k

/-- Models the package-level `os.Remove`: the name is resolved against the working directory. -/
def os.Remove (env : Resolver) (w : World) (name : String) : Except FsErr World :=
  match env.underCwd name with
  | none => .error .pathError
  | some k => World.removeAt w k

/-- Models the package-level `os.ReadDir`: the name is resolved against the working
directory. -/
def os.ReadDir (env : Resolver) (d : Disk) (name : String) : Except FsErr (List AbsPath) :=
  match env.underCwd name with
  | none => .error .pathError
  | some k =>
    match Disk.get d k with
    | some .dir => .ok (Disk.children d k)
    | _ => .error .pathError

/-! ## Contexts and errors -/

/-- The two errors a `context.Context` reports. -/
inductive CtxErr where
  | Canceled
  | DeadlineExceeded
  deriving DecidableEq, Repr

/-- Outcome of the `select` on `ctx.Done()` at the head of a loop iteration, with the value
of `ctx.Err()` when the channel is closed. -/
inductive CtxPoll where
  | live
  | done (err : Option CtxErr)
  deriving DecidableEq, Repr

/-- A call context: `entry` is `ctx.Err()` of the caller's context when the call starts,
`tick i` is what the derived timeout context shows at the head of loop iteration `i`. -/
structure Context where
  entry : Option CtxErr
  tick : Nat → CtxPoll

/-- A context that is live when the call starts and does not expire during the call. -/
def Context.live : Context := ⟨none, fun _ => .live⟩

/-- What an engine error wraps. The first three are the sentinels of `errors.go`. -/
inductive Cause where
  | ErrReceiveFile
  | ErrBadRequest
  | ErrInternal
  | ctx (e : CtxErr)
  | fs (e : FsErr)
  | read
  | send
  deriving DecidableEq, Repr

/-- An engine error, `fmt.Errorf("%s: %w", op, cause)`. -/
structure Error where
  op : String
  cause : Cause
  deriving DecidableEq, Repr

/-- Models `errors.Is(err, target)` on an engine error: the chain ends in the wrapped cause. -/
def errorsIs (err : Error) (target : Cause) : Bool :=
  decide (err.cause = target)

/-! ## The engine: `GetFile` -/

/-- The chunk size of the engine. -/
def bufSize : Nat := 4096

/-- What the environment does at one `file.Read`: fail, or deliver up to `n` bytes. -/
inductive ReadStep where
  | fail
  | upTo (n : Nat)
  deriving DecidableEq, Repr

/-- Result of one `file.Read(buf)`. -/
inductive ReadResult where
  | data (bytes : List Byte)
  | eof
  | err
  deriving DecidableEq, Repr

/-- Models `file.Read(buf)` with `len(buf) = bufSize` on a regular file at offset `pos`:
at the end of the file it reports `io.EOF`, otherwise it delivers at least one byte and at
most what the buffer and the file hold. -/
def fileRead (content : List Byte) (pos : Nat) (r : ReadStep) : ReadResult :=
  match r with
  | .fail => .err
  | .upTo n =>
    if content.length ≤ pos then .eof
    else .data ((content.drop pos).take (max 1 (min n (min bufSize (content.length - pos)))))

/-- The read loop of `GetFile` (lines 110-144). `i` counts iterations, `pos` is the file
offset, `sent` the chunks handed to `stream.MySend` so far. `none`: out of fuel. -/
def FileManager.GetFile.loop (ctx : Context) (reads : Nat → ReadStep) (sendOk : Nat → Bool)
    (content : List Byte) :
    Nat → Nat → Nat → List (List Byte) → Option (Option Error × List (List Byte))
  | 0, _, _, _ => none
  | fuel + 1, i, pos, sent =>
    match ctx.tick i with
    | .done (some e) => some (some ⟨"filemanager.GetFile", .ctx e⟩, sent)
    | .done none => some (some ⟨"filemanager.GetFile", .ErrInternal⟩, sent)
    | .live =>
      match fileRead content pos (reads i) with
      | .err => some (some ⟨"filemanager.GetFile", .read⟩, sent)
      | .eof => some (none, sent)
      | .data b =>
        if sendOk i then
          FileManager.GetFile.loop ctx reads sendOk content fuel (i + 1) (pos + b.length)
            (sent ++ [b])
        else some (some ⟨"filemanager.GetFile", .send⟩, sent)

/-- Models `(*FileManager).GetFile`: the returned error and the chunks sent, in order.
Every iteration that does not return consumes at least one byte, so `length + 1` rounds
are enough (see `GetFile_loop_returns`). -/
def FileManager.GetFile (env : Resolver) (ctx : Context) (reads : Nat → ReadStep)
    (sendOk : Nat → Bool) (fileName : String) (d : Disk) :
    Option (Option Error × List (List Byte)) :=
  match ctx.entry with
  | some e => some (some ⟨"filemanager.GetFile", .ctx e⟩, [])
  | none =>
    match Root.Stat env d fileName with
    | .error _ => some (some ⟨"filemanager.GetFile", .ErrBadRequest⟩, [])
    | .ok stat =>
      if stat.isDir then some (some ⟨"filemanager.GetFile", .ErrBadRequest⟩, [])
      else
        match Root.Open env d fileName with
        | .error e => some (some ⟨"filemanager.GetFile", .fs e⟩, [])
        | .ok file =>
          match Disk.get d file with
          | some (.file content) =>
            FileManager.GetFile.loop ctx reads sendOk content (content.length + 1) 0 0 []
          | _ => some (some ⟨"filemanager.GetFile", .read⟩, [])

/-! ## The engine: `PostFile`, `PutFile`, `DeleteFile` -/

/-- A message of an upload stream (`FileProvider`): a file name and a chunk. -/
structure Msg where
  fileName : String
  chunk : List Byte
  deriving DecidableEq, Repr

/-- How an upload stream ends once its messages are consumed: `io.EOF` or another error. -/
inductive RecvEnd where
  | eof
  | err
  deriving DecidableEq, Repr

/-- A `Receiver`: `MyReceive` yields `msgs` one by one and then `fin`. -/
structure Receiver where
  msgs : List Msg
  fin : RecvEnd
  deriving DecidableEq, Repr

/-- Models `file.Write(chunk)` on the handle `file`. `outcome = none`: the whole chunk is
appended and the call succeeds; `outcome = some n`: the call fails after `n` bytes went to
the file. -/
def fileWrite (w : World) (file : AbsPath) (chunk : List Byte) (outcome : Option Nat) :
    World × Bool :=
  let written := match outcome with
    | none => chunk
    | some n => chunk.take n
  match Disk.get w.disk file with
  | some (.file c) =>
    ({ disk := Disk.put w.disk file (.file (c ++ written)),
       ops := w.ops ++ [.write file written] }, outcome.isNone)
  | _ => (w, false)

/-- The locals of `PostFile` that its deferred function reads, with the returned error. -/
structure PostState where
  err : Option Error
  success : Bool
  filepath : String
  world : World
  deriving DecidableEq, Repr

/-- The write loop of `PostFile` (lines 215-253): `req` is the message in hand, `rest` what
the receiver still holds, `filepath` and the `success` flag are the Go locals. -/
def FileManager.PostFile.loop (ctx : Context) (writes : Nat → Option Nat) (fin : RecvEnd)
    (file : AbsPath) : Nat → Msg → List Msg → String → World → PostState
  | i, req, rest, filepath, w =>
    match ctx.tick i with
    | .done (some e) => ⟨some ⟨"filemanager.PostFile", .ctx e⟩, true, filepath, w⟩
    | .done none => ⟨some ⟨"filemanager.PostFile", .ErrInternal⟩, true, filepath, w⟩
    | .live =>
      match fileWrite w file req.chunk (writes i) with
      | (w1, false) => ⟨some ⟨"filemanager.PostFile", .ErrInternal⟩, false, filepath, w1⟩
      | (w1, true) =>
        match rest with
        | [] =>
          match fin with
          | .eof => ⟨none, true, filepath, w1⟩
          | .err => ⟨some ⟨"filemanager.PostFile", .ErrReceiveFile⟩, false, filepath, w1⟩
        | next :: rest1 =>
          FileManager.PostFile.loop ctx writes fin file (i + 1) next rest1 next.fileName w1

/-- The deferred function of `PostFile` (lines 204-213): after closing the handle, an
unsuccessful attempt calls `os.Remove(filepath)`; a failure of that call is only logged. -/
def FileManager.PostFile.cleanup (env : Resolver) (s : PostState) : World :=
  if s.success then s.world
  else
    match os.Remove env s.world s.filepath with
    | .ok w => w
    | .error _ => s.world

/-- Models `(*FileManager).PostFile`: the returned error and the world left behind. -/
def FileManager.PostFile (env : Resolver) (ctx : Context) (writes : Nat → Option Nat)
    (recv : Receiver) (w : World) : Option Error × World :=
  match ctx.entry with
  | some e => (some ⟨"filemanager.PostFile", .ctx e⟩, w)
  | none =>
    match recv.msgs with
    | [] => (some ⟨"filemanager.PostFile", .ErrReceiveFile⟩, w)
    | req :: rest =>
      match Root.Stat env w.disk req.fileName with
      | .ok _ => (some ⟨"filemanager.PostFile", .ErrBadRequest⟩, w)
      | .error _ =>
        match Root.Create env w req.fileName with
        | .error .pathError => (some ⟨"filemanager.PostFile", .ErrBadRequest⟩, w)
        | .error .other => (some ⟨"filemanager.PostFile", .ErrInternal⟩, w)
        | .ok (file, w1) =>
          let s := FileManager.PostFile.loop ctx writes recv.fin file 0 req rest req.fileName w1
          (s.err, FileManager.PostFile.cleanup env s)

/-- The write loop of `PutFile` (lines 359-393). -/
def FileManager.PutFile.loop (ctx : Context) (writes : Nat → Option Nat) (fin : RecvEnd)
    (file : AbsPath) : Nat → Msg → List Msg → World → Option Error × World
  | i, req, rest, w =>
    match ctx.tick i with
    | .done (some e) => (some ⟨"filemanager.UpdateFile", .ctx e⟩, w)
    | .done none => (some ⟨"filemanager.UpdateFile", .ErrInternal⟩, w)
    | .live =>
      match fileWrite w file req.chunk (writes i) with
      | (w1, false) => (some ⟨"filemanager.UpdateFile", .ErrInternal⟩, w1)
      | (w1, true) =>
        match rest with
        | [] =>
          match fin with
          | .eof => (none, w1)
          | .err => (some ⟨"filemanager.UpdateFile", .ErrReceiveFile⟩, w1)
        | next :: rest1 => FileManager.PutFile.loop ctx writes fin file (i + 1) next rest1 w1

/-- Models `(*FileManager).PutFile`: the returned error and the world left behind. -/
def FileManager.PutFile (env : Resolver) (ctx : Context) (writes : Nat → Option Nat)
    (recv : Receiver) (w : World) : Option Error × World :=
  match ctx.entry with
  | some e => (some ⟨"filemanager.UpdateFile", .ctx e⟩, w)
  | none =>
    match recv.msgs with
    | [] => (some ⟨"filemanager.UpdateFile", .ErrReceiveFile⟩, w)
    | req :: rest =>
      match Root.Stat env w.disk req.fileName with
      | .error _ => (some ⟨"filemanager.UpdateFile", .ErrBadRequest⟩, w)
      | .ok stat =>
        if stat.isDir then (some ⟨"filemanager.UpdateFile", .ErrBadRequest⟩, w)
        else
          match Root.Create env w req.fileName with
          | .error .pathError => (some ⟨"filemanager.UpdateFile", .ErrBadRequest⟩, w)
          | .error .other => (some ⟨"filemanager.UpdateFile", .ErrInternal⟩, w)
          | .ok (file, w1) => FileManager.PutFile.loop ctx writes recv.fin file 0 req rest w1

/-- Models `checkDirToDelete`: `none` when the directory read by `os.ReadDir(filename)` has
no entry, otherwise the sentinel returned. -/
def checkDirToDelete (env : Resolver) (d : Disk) (filename : String) : Option Cause :=
  match os.ReadDir env d filename with
  | .error _ => some .ErrInternal
  | .ok dir => if dir.length > 0 then some .ErrBadRequest else none

/-- Models `(*FileManager).DeleteFile`; `ctxErr` is `ctx.Err()` when the call starts. -/
def FileManager.DeleteFile (env : Resolver) (ctxErr : Option CtxErr) (filename : String)
    (w : World) : Option Error × World :=
  match ctxErr with
  | some e => (some ⟨"filemanager.DeleteFile", .ctx e⟩, w)
  | none =>
    match Root.Stat env w.disk filename with
    | .error _ => (some ⟨"filemanager.DeleteFile", .ErrBadRequest⟩, w)
    | .ok stat =>
      match (if stat.isDir then checkDirToDelete env w.disk filename else none) with
      | some c => (some ⟨"filemanager.DeleteFile", c⟩, w)
      | none =>
        match Root.Remove env w filename with
        | .error _ => (some ⟨"filemanager.DeleteFile", .ErrInternal⟩, w)
        | .ok w1 => (none, w1)

/-! ## The RPC facade (`server.go`) -/

/-- The gRPC status codes the two services use. -/
inductive Code where
  | Canceled
  | InvalidArgument
  | DeadlineExceeded
  | NotFound
  | Aborted
  | Internal
  | DataLoss
  | Unknown
  deriving DecidableEq, Repr

/-- What a client-streaming handler of the facade did: the status it returned (`none` is a
nil error) and how many times it called `stream.SendAndClose`. -/
structure Reply where
  status : Option Code
  closes : Nat
  deriving DecidableEq, Repr

/-- Models `(*serverAPI).GetFile` given what `s.fm.GetFile` returned. -/
def serverAPI.GetFile (fmErr : Option Error) : Option Code :=
  match fmErr with
  | some err => if errorsIs err .ErrBadRequest then some .NotFound else some .Internal
  | none => none

/-- The `switch` shared by `(*serverAPI).PostFile` and `(*serverAPI).PutFile`. -/
def serverAPI.uploadStatus (err : Error) : Code :=
  if errorsIs err .ErrReceiveFile then .DataLoss
  else if errorsIs err .ErrInternal then .Internal
  else if errorsIs err .ErrBadRequest then .InvalidArgument
  else .Internal

/-- Models `(*serverAPI).PostFile` given what `s.fm.PostFile` returned; the deferred
function calls `SendAndClose` on every return. -/
def serverAPI.PostFile (fmErr : Option Error) : Reply :=
  match fmErr with
  | some err => ⟨some (serverAPI.uploadStatus err), 1⟩
  | none => ⟨none, 1⟩

/-- Models `(*serverAPI).DeleteFile` given what `s.fm.DeleteFile` returned. -/
def serverAPI.DeleteFile (fmErr : Option Error) : Option Code :=
  match fmErr with
  | some err => if errorsIs err .ErrBadRequest then some .InvalidArgument else some .Internal
  | none => none

/-- Models `(*serverAPI).PutFile` given what `s.fm.PutFile` returned; `SendAndClose` is
called on the success path only. -/
def serverAPI.PutFile (fmErr : Option Error) : Reply :=
  match fmErr with
  | some err => ⟨some (serverAPI.uploadStatus err), 0⟩
  | none => ⟨none, 1⟩

/-! ## The gateway client (`grpc.go`): download -/

/-- How a server stream ends for the client: `io.EOF` or a status error. -/
inductive StreamEnd where
  | eof
  | status (c : Code)
  deriving DecidableEq, Repr

/-- A server stream as the client's `stream.Recv` sees it: the chunks, then the end. -/
structure ServerStream where
  chunks : List (List Byte)
  fin : StreamEnd
  deriving DecidableEq, Repr

/-- What the client reads when the handler sent `sent` and returned `status`: the messages
in order, then `io.EOF` for a nil status and the status error otherwise. -/
def ServerStream.ofHandler (sent : List (List Byte)) (status : Option Code) : ServerStream :=
  match status with
  | none => ⟨sent, .eof⟩
  | some c => ⟨sent, .status c⟩

/-- Errors of the gateway client: a context error, the status of the call, or another error
that carries no status (a failed `data.Read`, `io.EOF` from a broken stream). -/
inductive ClientErr where
  | ctx (e : CtxErr)
  | status (c : Code)
  | other
  deriving DecidableEq, Repr

/-- The receive loop of `(*Client).GetFile` (lines 114-126): `res` accumulates the chunks. -/
def Client.GetFile.loop (fin : StreamEnd) : List (List Byte) → List Byte →
    List Byte × Option ClientErr
  | [], res =>
    match fin with
    | .eof => (res, none)
    | .status c => ([], some (.status c))
  | chunk :: rest, res => Client.GetFile.loop fin rest (res ++ chunk)

/-- Models `(*Client).GetFile`: `entry` is `ctx.Err()` when the call starts, `call` what
`c.api.GetFile` returned (a stream or an error). A nil slice is the empty list. -/
def Client.GetFile (entry : Option CtxErr) (call : Except Code ServerStream) :
    List Byte × Option ClientErr :=
  match entry with
  | some e => ([], some (.ctx e))
  | none =>
    match call with
    | .error c => ([], some (.status c))
    | .ok stream => Client.GetFile.loop stream.fin stream.chunks []

/-! ## Path validation (`io/fs`, `path/filepath`) -/

/-- The elements of a slash-separated name. -/
def splitSlash : List Char → List (List Char)
  | [] => [[]]
  | c :: cs =>
    if c = '/' then [] :: splitSlash cs
    else
      match splitSlash cs with
      | [] => [[c]]
      | e :: es => (c :: e) :: es

/-- Models `fs.ValidPath`: the name is `.`, or every slash-separated element is non-empty and
is neither `.` nor `..` (so no leading or trailing slash). -/
def fs.ValidPath (name : String) : Bool :=
  decide (name = ".") ||
    (splitSlash name.toList).all
      (fun e => decide (e ≠ []) && decide (e ≠ ['.']) && decide (e ≠ ['.', '.']))

/-- Models `filepath.Localize` on Unix: a name that is not a valid path or holds a NUL byte
is an error (`none`), any other name is returned as it is. -/
def filepath.Localize (path : String) : Option String :=
  if fs.ValidPath path && !(path.toList.contains (Char.ofNat 0)) then some path else none

/-! ## The gateway client (`grpc.go`): upload and delete -/

/-- The chunk size of the gateway client. -/
def bufsize : Nat := 4096

/-- The value an `int64` holds after an addition whose exact result is `x`. -/
def wrapInt64 (x : Int) : Int :=
  (x + 9223372036854775808) % 18446744073709551616 - 9223372036854775808

/-- What an upload of the gateway client did: the error returned, the messages handed to
`stream.Send` that went out (in order), how often `stream.CloseAndRecv` was called, and
whether a failure of `CloseAndRecv` was written to the log. -/
structure UploadResult where
  err : Option ClientErr
  sent : List Msg
  closes : Nat
  ackLogged : Bool
  deriving DecidableEq, Repr

/-- The send loop of `(*Client).PostFile` and `(*Client).PutFile` (lines 205-224, 269-288).
`reads i` is what the `i`-th `data.Read(chunk)` delivers (`none`: an error, end of data
included), `sends i` the error of the `i`-th `stream.Send` if any; `sent` is the `int64`
counter. The first argument bounds the iterations; `none`: the bound was reached with the
loop still running. -/
def Client.upload.loop (reads : Nat → Option (List Byte)) (sends : Nat → Option ClientErr)
    (filename : String) (size : Int) :
    Nat → Nat → Int → List Msg → Option (Option ClientErr × List Msg)
  | 0, _, sent, msgs => if sent < size then none else some (none, msgs)
  | fuel + 1, i, sent, msgs =>
    if sent < size then
      match reads i with
      | none => some (some .other, msgs)
      | some bytes =>
        match sends i with
        | some e => some (some e, msgs)
        | none =>
          Client.upload.loop reads sends filename size fuel (i + 1)
            (wrapInt64 (sent + ((bytes.take bufsize).length : Int)))
            (msgs ++ [⟨filename, bytes.take bufsize⟩])
    else some (none, msgs)

/-- The body shared by `(*Client).PostFile` and `(*Client).PutFile`: `entry` is `ctx.Err()`
when the call starts, `opened` the error of `c.api.PostFile(ctx)` if any, `ack` the error of
the deferred `stream.CloseAndRecv()` if any (it is only logged), `size` is `header.Size()`. -/
def Client.upload (entry : Option CtxErr) (opened : Option Code) (ack : Option Code)
    (reads : Nat → Option (List Byte)) (sends : Nat → Option ClientErr) (size : Int)
    (filename : String) (fuel : Nat) : Option UploadResult :=
  match entry with
  | some e => some ⟨some (.ctx e), [], 0, false⟩
  | none =>
    match opened with
    | some c => some ⟨some (.status c), [], 0, false⟩
    | none =>
      let filename1 := (filepath.Localize filename).getD ""
      if !fs.ValidPath filename1 then
        some ⟨some (.status .InvalidArgument), [], 1, ack.isSome⟩
      else
        (Client.upload.loop reads sends filename1 size fuel 0 0 []).map
          (fun r => ⟨r.1, r.2, 1, ack.isSome⟩)

/-- Models `(*Client).PostFile`. -/
def Client.PostFile (entry : Option CtxErr) (opened : Option Code) (ack : Option Code)
    (reads : Nat → Option (List Byte)) (sends : Nat → Option ClientErr) (size : Int)
    (filename : String) (fuel : Nat) : Option UploadResult :=
  Client.upload entry opened ack reads sends size filename fuel

/-- Models `(*Client).PutFile`, whose body is that of `PostFile`. -/
def Client.PutFile (entry : Option CtxErr) (opened : Option Code) (ack : Option Code)
    (reads : Nat → Option (List Byte)) (sends : Nat → Option ClientErr) (size : Int)
    (filename : String) (fuel : Nat) : Option UploadResult :=
  Client.upload entry opened ack reads sends size filename fuel

/-- Models `(*Client).DeleteFile`: `api` is the unary call `c.api.DeleteFile` as a function
of the file name it is given; the result is the error returned and the name sent. -/
def Client.DeleteFile (entry : Option CtxErr) (api : String → Option Code)
    (filename : String) : Option ClientErr × Option String :=
  match entry with
  | some e => (some (.ctx e), none)
  | none =>
    let filename1 := (filepath.Localize filename).getD ""
    match api filename1 with
    | some c => (some (.status c), some filename1)
    | none => (none, some filename1)

/-- A data source holding `content` whose every read fills the buffer while that many bytes
remain: read `i` delivers bytes `i * bufsize ..`, and a read at the end of the data is an
error. -/
def fullReads (content : List Byte) : Nat → Option (List Byte) :=
  fun i =>
    if i * bufsize < content.length then some ((content.drop (i * bufsize)).take bufsize)
    else none

/-- The number of bytes the data source delivers in `k` reads starting with read `i`. -/
def suppliedBytes (reads : Nat → Option (List Byte)) : Nat → Nat → Nat
  | _, 0 => 0
  | i, k + 1 => ((reads i).getD []).length + suppliedBytes reads (i + 1) k

/-- The messages that carry, under `filename`, what `k` reads starting with read `i`
deliver, in order. -/
def readMsgs (reads : Nat → Option (List Byte)) (filename : String) : Nat → Nat → List Msg
  | _, 0 => []
  | i, k + 1 => ⟨filename, (reads i).getD []⟩ :: readMsgs reads filename (i + 1) k

/-- The number of bytes the `sent` counter of the send loop gains over `k` reads starting
with read `i`: what each read delivers, cut to the buffer. -/
def countedBytes (reads : Nat → Option (List Byte)) : Nat → Nat → Nat
  | _, 0 => 0
  | i, k + 1 => (((reads i).getD []).take bufsize).length + countedBytes reads (i + 1) k

/-- The total number of bytes carried by a list of messages. -/
def sentBytes (msgs : List Msg) : Nat :=
  (msgs.map (fun m => m.chunk.length)).sum

/-! ## The HTTP bridge (`http_handlers`) -/

/-- Models `status.Code(err)` on an error of the gateway client: the code of the status the
error is or wraps, `Unknown` for an error that carries no status. -/
def status.Code (err : ClientErr) : Code :=
  match err with
  | .status c => c
  | .ctx _ => .Unknown
  | .other => .Unknown

/-- A call of a method of the gateway client, with the file path passed. -/
inductive ClientCall where
  | GetFile (filepath : String)
  | PostFile (filepath : String)
  | PutFile (filepath : String)
  | DeleteFile (filepath : String)
  deriving DecidableEq, Repr

/-- What a handler did: every status code it wrote to the response, in order (the first one
is the status of the response), the body, and the calls made to the gateway client. -/
structure Response where
  headers : List Nat
  body : List Byte
  calls : List ClientCall
  deriving DecidableEq, Repr

/-- The status the HTTP client sees: the first status code written. -/
def Response.status (r : Response) : Option Nat := r.headers.head?

/-- Modelled from the spec: `httperrors.Error(w, code)` of `lab3/internal/lib/http/errors`,
which is not among the sources; the response carries only the status code `code`, no
structured body. -/
def httperrors.Error (r : Response) (code : Nat) : Response :=
  { r with headers := r.headers ++ [code] }

/-- Models the handler returned by `NewGet`: `client` is `client.GetFile` as a function of
the path, `filepath` the query parameter. -/
def NewGet (client : String → List Byte × Option ClientErr) (filepath : String) : Response :=
  if !fs.ValidPath filepath then httperrors.Error ⟨[], [], []⟩ 400
  else
    match client filepath with
    | (_, some err) =>
      let httpErrCode :=
        match status.Code err with
        | .NotFound => 404
        | .Internal => 500
        | _ => 500
      httperrors.Error ⟨[], [], [.GetFile filepath]⟩ httpErrCode
    | (res, none) => ⟨[200], res, [.GetFile filepath]⟩

/-- The `switch` on `status.Code(err)` of the POST and PUT handlers. -/
def uploadHttpCode (err : ClientErr) : Nat :=
  match status.Code err with
  | .InvalidArgument => 400
  | .DataLoss => 500
  | .Internal => 500
  | _ => 500

/-- Models the handler returned by `NewPost`: `filepath` is the form value, `formFile` tells
whether `r.FormFile("file")` succeeded, `client` is `client.PostFile` as a function of the
path. -/
def NewPost (client : String → Option ClientErr) (filepath : String) (formFile : Bool) :
    Response :=
  if !fs.ValidPath filepath then httperrors.Error ⟨[], [], []⟩ 400
  else if !formFile then httperrors.Error ⟨[], [], []⟩ 400
  else
    match client filepath with
    | some err => httperrors.Error ⟨[], [], [.PostFile filepath]⟩ (uploadHttpCode err)
    | none => ⟨[201], [], [.PostFile filepath]⟩

/-- Models the handler returned by `NewPut`. -/
def NewPut (client : String → Option ClientErr) (filepath : String) (formFile : Bool) :
    Response :=
  if !fs.ValidPath filepath then httperrors.Error ⟨[], [], []⟩ 400
  else if !formFile then httperrors.Error ⟨[], [], []⟩ 400
  else
    match client filepath with
    | some err => httperrors.Error ⟨[], [], [.PutFile filepath]⟩ (uploadHttpCode err)
    | none => ⟨[200], [], [.PutFile filepath]⟩

/-- Models the handler returned by `NewDelete`. After the 400 written for an invalid path
the function goes on (`delete.go` lines 22-28 have no `return`). -/
def NewDelete (client : String → Option ClientErr) (filepath : String) : Response :=
  let w : Response :=
    if !fs.ValidPath filepath then httperrors.Error ⟨[], [], []⟩ 400 else ⟨[], [], []⟩
  let w1 : Response := { w with calls := w.calls ++ [.DeleteFile filepath] }
  match client filepath with
  | some err =>
    let httpErrCode :=
      match status.Code err with
      | .InvalidArgument => 400
      | .Internal => 500
      | _ => 500
    httperrors.Error w1 httpErrCode
  | none => { w1 with headers := w1.headers ++ [204] }

/-! ## The retry policy of the gateway client (`grpclient.New`) -/

/-- A host whose service root is `/srv/files` while the process runs in `/app`; the name
`../etc/passwd` leaves the root and is rejected by the root. -/
def demoHost : Resolver where
  underRoot := fun s => if s = "../etc/passwd" then none else some ["srv", "files", s]
  underCwd := fun s => if s = "../etc/passwd" then some ["etc", "passwd"] else some ["app", s]

/-- A host whose process runs inside the service root `/srv/files`, so that both resolutions
agree. -/
def rootCwdHost : Resolver where
  underRoot := fun s => if s = "../etc/passwd" then none else some ["srv", "files", s]
  underCwd := fun s => if s = "../etc/passwd" then some ["srv", "etc", "passwd"]
    else some ["srv", "files", s]

/-- The root directory `/srv/files` holding a three-byte file `a.txt`, an empty directory
`empty` and a directory `docs` with one file; `/app` is empty and `/etc/passwd` exists. -/
def demoDisk : Disk :=
  [(["srv"], .dir), (["srv", "files"], .dir), (["app"], .dir), (["etc"], .dir),
   (["etc", "passwd"], .file [7]),
   (["srv", "files", "a.txt"], .file [1, 2, 3]),
   (["srv", "files", "empty"], .dir),
   (["srv", "files", "docs"], .dir),
   (["srv", "files", "docs", "r.txt"], .file [9])]

/-- The demo filesystem with nothing done to it yet. -/
def demoWorld : World := ⟨demoDisk, []⟩

/-- A host with the service root `/srv/files` and the process in `/app` on which a
slash-separated name resolves element by element: `a/b.txt` is the entry `b.txt` of the
directory `a` of the root. Names that are not valid paths (absolute, or with a `.` or `..`
element) are rejected by the root; the package-level resolution of such names is not
described here. -/
def treeHost : Resolver where
  underRoot := fun s =>
    if s = "." then some ["srv", "files"]
    else if fs.ValidPath s then some (["srv", "files"] ++ (splitSlash s.toList).map String.mk)
    else none
  underCwd := fun s =>
    if s = "." then some ["app"]
    else if fs.ValidPath s then some (["app"] ++ (splitSlash s.toList).map String.mk)
    else none

/-- The demo filesystem with the directory `a` added under the root. -/
def nestedWorld : World := ⟨(["srv", "files", "a"], .dir) :: demoDisk, []⟩

/-- An upload of 10000 bytes to `a/b.txt` as chunks of 4096, 4096 and 1808 bytes. -/
def scenarioUpload : List Msg :=
  [⟨"a/b.txt", List.replicate 4096 1⟩, ⟨"a/b.txt", List.replicate 4096 2⟩,
   ⟨"a/b.txt", List.replicate 1808 3⟩]

/-! # Theorems -/

/-! ## The filesystem model -/

theorem Disk.get_erase_self (d : Disk) (k : AbsPath) : Disk.get (Disk.erase d k) k = none := by
  induction d with
  | nil => rfl
  | cons e rest ih =>
    obtain ⟨k1, n⟩ := e
    by_cases h : k1 = k <;> simp [Disk.erase, Disk.get, h, ih]

theorem Disk.get_erase_of_ne (d : Disk) (k k2 : AbsPath) (h : k2 ≠ k) :
    Disk.get (Disk.erase d k) k2 = Disk.get d k2 := by
  induction d with
  | nil => rfl
  | cons e rest ih =>
    obtain ⟨k1, n⟩ := e
    by_cases h1 : k1 = k
    · have h2 : ¬ k1 = k2 := fun h3 => h (h3.symm.trans h1)
      rw [Disk.erase, if_pos h1, Disk.get, if_neg h2, ih]
    · by_cases h2 : k1 = k2
      · rw [Disk.erase, if_neg h1, Disk.get, if_pos h2, Disk.get, if_pos h2]
      · rw [Disk.erase, if_neg h1, Disk.get, if_neg h2, Disk.get, if_neg h2, ih]

theorem Disk.get_put_self (d : Disk) (k : AbsPath) (n : Node) :
    Disk.get (Disk.put d k n) k = some n := by
  simp [Disk.put, Disk.get]

theorem Disk.get_put_of_ne (d : Disk) (k k2 : AbsPath) (n : Node) (h : k2 ≠ k) :
    Disk.get (Disk.put d k n) k2 = Disk.get d k2 := by
  have h1 : ¬ k = k2 := fun h2 => h h2.symm
  simp [Disk.put, Disk.get, h1, Disk.get_erase_of_ne d k k2 h]

/-! ## `GetFile` -/

/-- The read loop of `GetFile` returns: with the context live, no read failing and every send
succeeding, `remaining + 1` rounds reach the end of the file, and the chunks sent on the way
concatenate to the rest of the file. -/
theorem GetFile_loop_returns (ctx : Context) (reads : Nat → ReadStep) (sendOk : Nat → Bool)
    (content : List Byte) (hlive : ∀ i, ctx.tick i = .live)
    (hread : ∀ i, reads i ≠ .fail) (hsend : ∀ i, sendOk i = true) :
    ∀ (fuel i pos : Nat) (sent : List (List Byte)), content.length - pos < fuel →
      ∃ more, FileManager.GetFile.loop ctx reads sendOk content fuel i pos sent
          = some (none, sent ++ more)
        ∧ more.flatten = content.drop pos := by
  intro fuel
  induction fuel with
  | zero => intro i pos sent h; omega
  | succ fuel ih =>
    intro i pos sent h
    obtain ⟨n, hn⟩ : ∃ n, reads i = .upTo n := by
      cases hr : reads i with
      | fail => exact absurd hr (hread i)
      | upTo n => exact ⟨n, rfl⟩
    by_cases hend : content.length ≤ pos
    · refine ⟨[], ?_, ?_⟩
      · simp [FileManager.GetFile.loop, hlive, hn, fileRead, hend]
      · simp [List.drop_eq_nil_of_le hend]
    · have hpos : pos < content.length := by omega
      have hlen : ((content.drop pos).take
          (max 1 (min n (min bufSize (content.length - pos))))).length
          = max 1 (min n (min bufSize (content.length - pos))) := by
        simp only [List.length_take, List.length_drop]
        omega
      obtain ⟨more, hrun, hjoin⟩ := ih (i + 1)
        (pos + max 1 (min n (min bufSize (content.length - pos))))
        (sent ++ [(content.drop pos).take (max 1 (min n (min bufSize (content.length - pos))))])
        (by omega)
      refine ⟨(content.drop pos).take (max 1 (min n (min bufSize (content.length - pos))))
        :: more, ?_, ?_⟩
      · simp only [FileManager.GetFile.loop, hlive, hn, fileRead, hend, if_false, hsend,
          if_true, hlen]
        rw [hrun]
        simp
      · simp only [List.flatten_cons, hjoin]
        rw [← List.drop_drop]
        exact List.take_append_drop _ _

/-- The read loop of `GetFile` never runs out of rounds: whatever the context, the reads and
the sends do, `remaining + 1` rounds are enough for it to return. -/
theorem GetFile_loop_total (ctx : Context) (reads : Nat → ReadStep) (sendOk : Nat → Bool)
    (content : List Byte) :
    ∀ (fuel i pos : Nat) (sent : List (List Byte)), content.length - pos < fuel →
      (FileManager.GetFile.loop ctx reads sendOk content fuel i pos sent).isSome = true := by
  intro fuel
  induction fuel with
  | zero => intro i pos sent h; omega
  | succ fuel ih =>
    intro i pos sent h
    unfold FileManager.GetFile.loop
    cases htick : ctx.tick i with
    | done err => cases err <;> simp
    | live =>
      cases hr : reads i with
      | fail => simp [fileRead]
      | upTo n =>
        by_cases hend : content.length ≤ pos
        · simp [fileRead, hend]
        · have hlen : ((content.drop pos).take
              (max 1 (min n (min bufSize (content.length - pos))))).length
              = max 1 (min n (min bufSize (content.length - pos))) := by
            simp only [List.length_take, List.length_drop]
            omega
          cases hs : sendOk i with
          | false => simp [fileRead, hend, hs]
          | true =>
            simp only [fileRead, hend, if_false, hs, if_true, hlen]
            exact ih _ _ _ (by omega)

/-- `GetFile` always returns: the rounds it allows its loop are never used up. -/
theorem GetFile_total (env : Resolver) (ctx : Context) (reads : Nat → ReadStep)
    (sendOk : Nat → Bool) (fileName : String) (d : Disk) :
    (FileManager.GetFile env ctx reads sendOk fileName d).isSome = true := by
  unfold FileManager.GetFile
  split
  · rfl
  · split
    · rfl
    · split
      · rfl
      · split
        · rfl
        · split
          · exact GetFile_loop_total ctx reads sendOk _ _ 0 0 [] (by omega)
          · rfl

/-- The read loop of `GetFile` when every read fills the buffer: the chunks sent are the
successive `bufSize`-byte slices of the rest of the file, `ceil(remaining / bufSize)` of
them. -/
theorem GetFile_loop_full (ctx : Context) (reads : Nat → ReadStep) (sendOk : Nat → Bool)
    (content : List Byte) (hlive : ∀ i, ctx.tick i = .live)
    (hread : ∀ i, ∃ n, reads i = .upTo n ∧ bufSize ≤ n) (hsend : ∀ i, sendOk i = true) :
    ∀ (fuel i pos : Nat) (sent : List (List Byte)), content.length - pos < fuel →
      ∃ more, FileManager.GetFile.loop ctx reads sendOk content fuel i pos sent
          = some (none, sent ++ more)
        ∧ more.length = (content.length - pos + bufSize - 1) / bufSize
        ∧ ∀ j, j < more.length →
            more[j]? = some ((content.drop (pos + j * bufSize)).take bufSize) := by
  intro fuel
  induction fuel with
  | zero => intro i pos sent h; omega
  | succ fuel ih =>
    intro i pos sent h
    obtain ⟨n, hn, hfull⟩ := hread i
    by_cases hend : content.length ≤ pos
    · refine ⟨[], ?_, ?_, ?_⟩
      · simp [FileManager.GetFile.loop, hlive, hn, fileRead, hend]
      · simp only [bufSize, List.length_nil]
        omega
      · intro j hj
        simp at hj
    · have hpos : pos < content.length := by omega
      have hm : max 1 (min n (min bufSize (content.length - pos)))
          = min bufSize (content.length - pos) := by
        simp only [bufSize] at hfull ⊢
        omega
      have htake : (content.drop pos).take (min bufSize (content.length - pos))
          = (content.drop pos).take bufSize := by
        rw [List.take_eq_take, List.length_drop]
        omega
      have hlen : ((content.drop pos).take (min bufSize (content.length - pos))).length
          = min bufSize (content.length - pos) := by
        simp only [List.length_take, List.length_drop]
        omega
      obtain ⟨more, hrun, hcount, hslice⟩ := ih (i + 1)
        (pos + min bufSize (content.length - pos))
        (sent ++ [(content.drop pos).take (min bufSize (content.length - pos))])
        (by simp only [bufSize]; omega)
      refine ⟨(content.drop pos).take (min bufSize (content.length - pos)) :: more, ?_, ?_, ?_⟩
      · simp only [FileManager.GetFile.loop, hlive, hn, fileRead, hend, if_false, hsend,
          if_true, hm, hlen]
        rw [hrun]
        simp
      · simp only [List.length_cons, hcount, bufSize]
        omega
      · intro j hj
        cases j with
        | zero => simp [htake]
        | succ j =>
          have hj1 : j < more.length := by simpa using hj
          have hmore : 0 < more.length := by omega
          have hbig : min bufSize (content.length - pos) = bufSize := by
            rw [hcount] at hmore
            simp only [bufSize] at hmore ⊢
            omega
          rw [List.getElem?_cons_succ, hslice j hj1, hbig]
          have hoff : pos + bufSize + j * bufSize = pos + (j + 1) * bufSize := by ring
          rw [hoff]

/-- C1. Engine `GetFile`: for an existing regular file of `N` bytes under the root, when the
context does not expire, every read fills the buffer and every send succeeds, `GetFile`
returns nil having sent exactly `ceil(N / bufSize)` chunks (`bufSize = 4096`), chunk `j` being
bytes `j * bufSize ..` of the file, so that their concatenation is the file byte for byte;
an empty file yields zero chunks. -/
theorem C1_GetFile_sends_file_in_chunks (env : Resolver) (ctx : Context)
    (reads : Nat → ReadStep) (sendOk : Nat → Bool) (fileName : String) (d : Disk)
    (k : AbsPath) (content : List Byte)
    (hentry : ctx.entry = none) (hlive : ∀ i, ctx.tick i = .live)
    (hread : ∀ i, ∃ n, reads i = .upTo n ∧ bufSize ≤ n) (hsend : ∀ i, sendOk i = true)
    (hname : env.underRoot fileName = some k) (hfile : Disk.get d k = some (.file content)) :
    ∃ sent, FileManager.GetFile env ctx reads sendOk fileName d = some (none, sent)
      ∧ sent.length = (content.length + 4096 - 1) / 4096
      ∧ (∀ j, j < sent.length → sent[j]? = some ((content.drop (j * 4096)).take 4096))
      ∧ sent.flatten = content
      ∧ (content.length = 0 → sent = []) := by
  obtain ⟨more, hrun, hcount, hslice⟩ :=
    GetFile_loop_full ctx reads sendOk content hlive hread hsend (content.length + 1) 0 0 []
      (by omega)
  obtain ⟨more2, hrun2, hjoin⟩ :=
    GetFile_loop_returns ctx reads sendOk content hlive
      (fun i => by obtain ⟨n, hn, _⟩ := hread i; simp [hn]) hsend (content.length + 1) 0 0 []
      (by omega)
  have hsame : more2 = more := by
    rw [hrun] at hrun2
    simpa using hrun2.symm
  subst hsame
  refine ⟨more2, ?_, ?_, ?_, ?_, ?_⟩
  · simpa [FileManager.GetFile, hentry, Root.Stat, Root.Open, hname, hfile] using hrun
  · simpa [bufSize] using hcount
  · intro j hj
    simpa [bufSize] using hslice j hj
  · simpa using hjoin
  · intro h0
    have : more2.length = 0 := by
      rw [hcount, h0]
      simp [bufSize]
    exact List.length_eq_zero.mp this

/-- C1 at the three-byte file `a.txt` of the demo host: one chunk holding the three bytes. -/
theorem C1_GetFile_sends_file_in_chunks_witness :
    ∃ sent, FileManager.GetFile demoHost Context.live (fun _ => .upTo 4096) (fun _ => true)
        "a.txt" demoDisk = some (none, sent)
      ∧ sent.length = (([1, 2, 3] : List Byte).length + 4096 - 1) / 4096
      ∧ (∀ j, j < sent.length →
          sent[j]? = some ((([1, 2, 3] : List Byte).drop (j * 4096)).take 4096))
      ∧ sent.flatten = [1, 2, 3]
      ∧ (([1, 2, 3] : List Byte).length = 0 → sent = []) :=
  C1_GetFile_sends_file_in_chunks demoHost Context.live (fun _ => .upTo 4096) (fun _ => true)
    "a.txt" demoDisk ["srv", "files", "a.txt"] [1, 2, 3] rfl (fun _ => rfl)
    (fun _ => ⟨4096, rfl, Nat.le_refl _⟩) (fun _ => rfl) (by decide) (by decide)

/-! ## `PostFile` -/

/-- C2. Engine `PostFile`: when the first message names a path that already exists under the
root (a file or a directory), a call started with a live context returns an error that is
`ErrBadRequest` and leaves the filesystem exactly as it was: same entries, same contents, and
no create, write or remove recorded. -/
theorem C2_PostFile_existing_path_is_bad_request (env : Resolver) (ctx : Context)
    (writes : Nat → Option Nat) (recv : Receiver) (w : World) (req : Msg) (rest : List Msg)
    (k : AbsPath) (node : Node)
    (hentry : ctx.entry = none) (hfirst : recv.msgs = req :: rest)
    (hname : env.underRoot req.fileName = some k) (hexists : Disk.get w.disk k = some node) :
    ∃ err, FileManager.PostFile env ctx writes recv w = (some err, w)
      ∧ errorsIs err .ErrBadRequest = true := by
  refine ⟨⟨"filemanager.PostFile", .ErrBadRequest⟩, ?_, rfl⟩
  cases node <;> simp [FileManager.PostFile, hentry, hfirst, Root.Stat, hname, hexists]

/-- C2 on the demo host: creating over the existing file `a.txt`, and over the directory
`docs`, is refused and nothing changes. -/
theorem C2_PostFile_existing_path_is_bad_request_witness :
    (∃ err, FileManager.PostFile demoHost Context.live (fun _ => none)
        ⟨[⟨"a.txt", [4, 5]⟩], .eof⟩ demoWorld = (some err, demoWorld)
      ∧ errorsIs err .ErrBadRequest = true)
    ∧ Disk.get demoWorld.disk ["srv", "files", "a.txt"] = some (.file [1, 2, 3]) :=
  ⟨C2_PostFile_existing_path_is_bad_request demoHost Context.live (fun _ => none)
      ⟨[⟨"a.txt", [4, 5]⟩], .eof⟩ demoWorld ⟨"a.txt", [4, 5]⟩ [] ["srv", "files", "a.txt"]
      (.file [1, 2, 3]) rfl rfl (by decide) (by decide),
    by decide⟩

/-- C3, the code at a failing input. On the demo host (root `/srv/files`, process in `/app`)
a create of `new.txt` whose first write fails after one byte returns `ErrInternal`, the
deferred `os.Remove("new.txt")` looks in `/app`, and the partly written file is still under the
root afterwards. -/
theorem C3_PostFile_write_failure_leaves_file :
    (FileManager.PostFile demoHost Context.live (fun _ => some 1)
        ⟨[⟨"new.txt", [1, 2]⟩], .eof⟩ demoWorld).1
      = some ⟨"filemanager.PostFile", .ErrInternal⟩
    ∧ Root.Stat demoHost
        (FileManager.PostFile demoHost Context.live (fun _ => some 1)
          ⟨[⟨"new.txt", [1, 2]⟩], .eof⟩ demoWorld).2.disk "new.txt"
      = .ok ⟨false, 1⟩ := by
  decide

/-- C4, the code at a failing input. Even where the process runs inside the root, a create
of `new.txt` whose deadline fires at the second loop check returns the deadline error with
`success` still true, so the deferred function removes nothing and the file written so far
stays under the root. -/
theorem C4_PostFile_deadline_leaves_file :
    (FileManager.PostFile rootCwdHost
        ⟨none, fun i => if i = 0 then .live else .done (some .DeadlineExceeded)⟩
        (fun _ => none) ⟨[⟨"new.txt", [1, 2]⟩, ⟨"new.txt", [3]⟩], .eof⟩ demoWorld).1
      = some ⟨"filemanager.PostFile", .ctx .DeadlineExceeded⟩
    ∧ Root.Stat rootCwdHost
        (FileManager.PostFile rootCwdHost
          ⟨none, fun i => if i = 0 then .live else .done (some .DeadlineExceeded)⟩
          (fun _ => none) ⟨[⟨"new.txt", [1, 2]⟩, ⟨"new.txt", [3]⟩], .eof⟩ demoWorld).2.disk
        "new.txt"
      = .ok ⟨false, 2⟩ := by
  decide

/-! ## Path confinement -/

/-- A name that leaves the root is rejected by every method of the root, with a path error
and without any change. -/
theorem Root_rejects_escaping (env : Resolver) (w : World) (p : String)
    (hout : env.underRoot p = none) :
    Root.Stat env w.disk p = .error .pathError ∧ Root.Open env w.disk p = .error .pathError
      ∧ Root.Create env w p = .error .pathError ∧ Root.Remove env w p = .error .pathError := by
  simp [Root.Stat, Root.Open, Root.Create, Root.Remove, hout]

/-- Every failure of the root's `Create` is a path error, as in `os.Root`. -/
theorem Root_Create_error_is_pathError (env : Resolver) (w : World) (p : String) (e : FsErr)
    (h : Root.Create env w p = .error e) : e = .pathError := by
  unfold Root.Create at h
  split at h
  · injection h with h; exact h.symm
  · split at h
    · injection h with h; exact h.symm
    · cases h
    · split at h
      · cases h
      · injection h with h; exact h.symm

/-- C5. Engine path confinement: for a path `p` on which the root's `Stat` and `Create` fail
(so for every path resolving outside the confined root, on which `Stat`, `Open`, `Create` and
`Remove` all fail, see `Root_rejects_escaping`), `GetFile(p)`, `DeleteFile(p)` and
`PostFile`/`PutFile` whose first chunk names `p` (each started with a live context) return an
error that is `ErrBadRequest`; nothing is sent, the filesystem is unchanged and no create,
write or remove is recorded. -/
theorem C5_escaping_path_is_bad_request (env : Resolver) (p : String) (w : World)
    (hstat : ∃ e, Root.Stat env w.disk p = .error e)
    (hcreate : ∃ e, Root.Create env w p = .error e)
    (ctx : Context) (hentry : ctx.entry = none)
    (reads : Nat → ReadStep) (sendOk : Nat → Bool) (writes : Nat → Option Nat)
    (chunk : List Byte) (rest : List Msg) (fin : RecvEnd) :
    (∃ err, FileManager.GetFile env ctx reads sendOk p w.disk = some (some err, [])
        ∧ errorsIs err .ErrBadRequest = true)
    ∧ (∃ err, FileManager.DeleteFile env none p w = (some err, w)
        ∧ errorsIs err .ErrBadRequest = true)
    ∧ (∃ err, FileManager.PostFile env ctx writes ⟨⟨p, chunk⟩ :: rest, fin⟩ w = (some err, w)
        ∧ errorsIs err .ErrBadRequest = true)
    ∧ (∃ err, FileManager.PutFile env ctx writes ⟨⟨p, chunk⟩ :: rest, fin⟩ w = (some err, w)
        ∧ errorsIs err .ErrBadRequest = true) := by
  obtain ⟨e1, he1⟩ := hstat
  obtain ⟨e2, he2⟩ := hcreate
  have hpe : e2 = .pathError := Root_Create_error_is_pathError env w p e2 he2
  subst hpe
  refine ⟨⟨⟨"filemanager.GetFile", .ErrBadRequest⟩, ?_, rfl⟩,
    ⟨⟨"filemanager.DeleteFile", .ErrBadRequest⟩, ?_, rfl⟩,
    ⟨⟨"filemanager.PostFile", .ErrBadRequest⟩, ?_, rfl⟩,
    ⟨⟨"filemanager.UpdateFile", .ErrBadRequest⟩, ?_, rfl⟩⟩
  · simp [FileManager.GetFile, hentry, he1]
  · simp [FileManager.DeleteFile, he1]
  · simp [FileManager.PostFile, hentry, he1, he2]
  · simp [FileManager.PutFile, hentry, he1]

/-- C5 on the demo host, where `../etc/passwd` leaves the root `/srv/files`: the four
operations answer `ErrBadRequest` and the filesystem is as before. -/
theorem C5_escaping_path_is_bad_request_witness :
    demoHost.underRoot "../etc/passwd" = none
    ∧ (∃ err, FileManager.GetFile demoHost Context.live (fun _ => .upTo 4096) (fun _ => true)
          "../etc/passwd" demoWorld.disk = some (some err, [])
        ∧ errorsIs err .ErrBadRequest = true)
    ∧ (∃ err, FileManager.DeleteFile demoHost none "../etc/passwd" demoWorld
          = (some err, demoWorld)
        ∧ errorsIs err .ErrBadRequest = true)
    ∧ (∃ err, FileManager.PostFile demoHost Context.live (fun _ => none)
          ⟨⟨"../etc/passwd", [0]⟩ :: [], .eof⟩ demoWorld = (some err, demoWorld)
        ∧ errorsIs err .ErrBadRequest = true)
    ∧ (∃ err, FileManager.PutFile demoHost Context.live (fun _ => none)
          ⟨⟨"../etc/passwd", [0]⟩ :: [], .eof⟩ demoWorld = (some err, demoWorld)
        ∧ errorsIs err .ErrBadRequest = true) :=
  ⟨by decide,
    C5_escaping_path_is_bad_request demoHost "../etc/passwd" demoWorld
      ⟨.pathError, by decide⟩ ⟨.pathError, by decide⟩ Context.live rfl
      (fun _ => .upTo 4096) (fun _ => true) (fun _ => none) [0] [] .eof⟩

/-! ## `DeleteFile` -/

/-- C6, the code at failing inputs. On the demo host (root `/srv/files`, process in `/app`)
`checkDirToDelete` reads the directory of that name in `/app`: deleting the non-empty
directory `docs` of the root returns `ErrInternal` instead of `ErrBadRequest`, and deleting
the empty directory `empty` of the root returns `ErrInternal` and leaves it in place. -/
theorem C6_DeleteFile_checks_wrong_directory :
    FileManager.DeleteFile demoHost none "docs" demoWorld
      = (some ⟨"filemanager.DeleteFile", .ErrInternal⟩, demoWorld)
    ∧ FileManager.DeleteFile demoHost none "empty" demoWorld
      = (some ⟨"filemanager.DeleteFile", .ErrInternal⟩, demoWorld)
    ∧ Root.Stat demoHost demoWorld.disk "empty" = .ok ⟨true, 0⟩ := by
  decide

/-! ## `PutFile` -/

/-- A write that succeeds appends the whole chunk to the file behind the handle and touches
no other location. -/
theorem fileWrite_ok (w : World) (file : AbsPath) (chunk c : List Byte)
    (hfile : Disk.get w.disk file = some (.file c)) :
    (fileWrite w file chunk none).2 = true
      ∧ Disk.get (fileWrite w file chunk none).1.disk file = some (.file (c ++ chunk))
      ∧ ∀ k, k ≠ file → Disk.get (fileWrite w file chunk none).1.disk k = Disk.get w.disk k := by
  refine ⟨?_, ?_, ?_⟩
  · simp [fileWrite, hfile]
  · simp [fileWrite, hfile, Disk.get_put_self]
  · intro k hk
    simp [fileWrite, hfile, Disk.get_put_of_ne _ _ _ _ hk]

/-- The write loop of `PutFile` when the context stays live, every write succeeds and the
stream ends with end-of-input: it returns nil, the file holds its former bytes followed by
the chunks in order, and no other location changes. -/
theorem PutFile_loop_ok (ctx : Context) (writes : Nat → Option Nat) (file : AbsPath)
    (hlive : ∀ i, ctx.tick i = .live) (hwrite : ∀ i, writes i = none) :
    ∀ (rest : List Msg) (i : Nat) (req : Msg) (w : World) (c : List Byte),
      Disk.get w.disk file = some (.file c) →
      (FileManager.PutFile.loop ctx writes .eof file i req rest w).1 = none
        ∧ Disk.get (FileManager.PutFile.loop ctx writes .eof file i req rest w).2.disk file
            = some (.file (c ++ ((req :: rest).map Msg.chunk).flatten))
        ∧ ∀ k, k ≠ file →
            Disk.get (FileManager.PutFile.loop ctx writes .eof file i req rest w).2.disk k
              = Disk.get w.disk k := by
  intro rest
  induction rest with
  | nil =>
    intro i req w c hfile
    obtain ⟨hok, hnew, hother⟩ := fileWrite_ok w file req.chunk c hfile
    have hpair : fileWrite w file req.chunk none
        = ((fileWrite w file req.chunk none).1, true) := by
      rw [← hok]
    unfold FileManager.PutFile.loop
    rw [hlive, hwrite]
    simp only
    rw [hpair]
    simp only
    exact ⟨trivial, by simpa using hnew, hother⟩
  | cons next rest1 ih =>
    intro i req w c hfile
    obtain ⟨hok, hnew, hother⟩ := fileWrite_ok w file req.chunk c hfile
    have hpair : fileWrite w file req.chunk none
        = ((fileWrite w file req.chunk none).1, true) := by
      rw [← hok]
    obtain ⟨h1, h2, h3⟩ := ih (i + 1) next (fileWrite w file req.chunk none).1
      (c ++ req.chunk) hnew
    unfold FileManager.PutFile.loop
    rw [hlive, hwrite]
    simp only
    rw [hpair]
    simp only
    refine ⟨h1, ?_, ?_⟩
    · rw [h2]
      simp [List.append_assoc]
    · intro k hk
      rw [h3 k hk, hother k hk]

/-- C7. Engine `PutFile`, for a call started with a live context whose first message is
`req`: if the path it names does not exist under the root or is a directory, `PutFile`
returns `ErrBadRequest` and changes nothing; if it is a regular file, the context stays
live, every write succeeds and the stream ends with end-of-input, `PutFile` returns nil and
the file holds exactly the received chunks concatenated in order (nothing of the previous
content), every other location being as before. -/
theorem C7_PutFile_replaces_content (env : Resolver) (ctx : Context)
    (writes : Nat → Option Nat) (recv : Receiver) (w : World) (req : Msg) (rest : List Msg)
    (hentry : ctx.entry = none) (hfirst : recv.msgs = req :: rest) :
    (((∃ e, Root.Stat env w.disk req.fileName = .error e)
        ∨ (∃ info, Root.Stat env w.disk req.fileName = .ok info ∧ info.isDir = true)) →
      ∃ err, FileManager.PutFile env ctx writes recv w = (some err, w)
        ∧ errorsIs err .ErrBadRequest = true)
    ∧ (∀ (k : AbsPath) (old : List Byte),
        env.underRoot req.fileName = some k → Disk.get w.disk k = some (.file old) →
        (∀ i, ctx.tick i = .live) → (∀ i, writes i = none) → recv.fin = .eof →
        (FileManager.PutFile env ctx writes recv w).1 = none
          ∧ Disk.get (FileManager.PutFile env ctx writes recv w).2.disk k
              = some (.file ((req :: rest).map Msg.chunk).flatten)
          ∧ ∀ k2, k2 ≠ k →
              Disk.get (FileManager.PutFile env ctx writes recv w).2.disk k2
                = Disk.get w.disk k2) := by
  constructor
  · intro h
    refine ⟨⟨"filemanager.UpdateFile", .ErrBadRequest⟩, ?_, rfl⟩
    rcases h with ⟨e, he⟩ | ⟨info, hinfo, hdir⟩
    · simp [FileManager.PutFile, hentry, hfirst, he]
    · simp [FileManager.PutFile, hentry, hfirst, hinfo, hdir]
  · intro k old hname hfile hlive hwrite hfin
    have hrun : FileManager.PutFile env ctx writes recv w
        = FileManager.PutFile.loop ctx writes .eof k 0 req rest
            { disk := Disk.put w.disk k (.file []), ops := w.ops ++ [.create k] } := by
      simp [FileManager.PutFile, hentry, hfirst, Root.Stat, Root.Create, hname, hfile, hfin]
    obtain ⟨h1, h2, h3⟩ := PutFile_loop_ok ctx writes k hlive hwrite rest 0 req
      { disk := Disk.put w.disk k (.file []), ops := w.ops ++ [.create k] } []
      (Disk.get_put_self _ _ _)
    rw [hrun]
    refine ⟨h1, by simpa using h2, ?_⟩
    intro k2 hk2
    rw [h3 k2 hk2]
    exact Disk.get_put_of_ne _ _ _ _ hk2

/-- C7 on the demo host: replacing `a.txt` (formerly `[1, 2, 3]`) by the chunks `[4]` and
`[5, 6]` leaves exactly `[4, 5, 6]`; replacing the missing `nope.txt` and the directory
`docs` is refused without any change. -/
theorem C7_PutFile_replaces_content_witness :
    ((FileManager.PutFile demoHost Context.live (fun _ => none)
        ⟨[⟨"a.txt", [4]⟩, ⟨"a.txt", [5, 6]⟩], .eof⟩ demoWorld).1 = none
      ∧ Disk.get (FileManager.PutFile demoHost Context.live (fun _ => none)
          ⟨[⟨"a.txt", [4]⟩, ⟨"a.txt", [5, 6]⟩], .eof⟩ demoWorld).2.disk
          ["srv", "files", "a.txt"] = some (.file [4, 5, 6]))
    ∧ (∃ err, FileManager.PutFile demoHost Context.live (fun _ => none)
          ⟨[⟨"nope.txt", [4]⟩], .eof⟩ demoWorld = (some err, demoWorld)
        ∧ errorsIs err .ErrBadRequest = true)
    ∧ (∃ err, FileManager.PutFile demoHost Context.live (fun _ => none)
          ⟨[⟨"docs", [4]⟩], .eof⟩ demoWorld = (some err, demoWorld)
        ∧ errorsIs err .ErrBadRequest = true) :=
  ⟨by
      have h := (C7_PutFile_replaces_content demoHost Context.live (fun _ => none)
        ⟨[⟨"a.txt", [4]⟩, ⟨"a.txt", [5, 6]⟩], .eof⟩ demoWorld ⟨"a.txt", [4]⟩
        [⟨"a.txt", [5, 6]⟩] rfl rfl).2 ["srv", "files", "a.txt"] [1, 2, 3]
        (by decide) (by decide) (fun _ => rfl) (fun _ => rfl) rfl
      exact ⟨h.1, h.2.1⟩,
    (C7_PutFile_replaces_content demoHost Context.live (fun _ => none)
      ⟨[⟨"nope.txt", [4]⟩], .eof⟩ demoWorld ⟨"nope.txt", [4]⟩ [] rfl rfl).1
      (Or.inl ⟨.pathError, by decide⟩),
    (C7_PutFile_replaces_content demoHost Context.live (fun _ => none)
      ⟨[⟨"docs", [4]⟩], .eof⟩ demoWorld ⟨"docs", [4]⟩ [] rfl rfl).1
      (Or.inr ⟨⟨true, 0⟩, by decide, rfl⟩)⟩

/-! ## Upload then download -/

/-- The write loop of `PostFile` when the context stays live, every write succeeds and the
stream ends with end-of-input: it returns nil with `success` still set, the file holds its
former bytes followed by the chunks in order, and no other location changes. -/
theorem PostFile_loop_ok (ctx : Context) (writes : Nat → Option Nat) (file : AbsPath)
    (hlive : ∀ i, ctx.tick i = .live) (hwrite : ∀ i, writes i = none) :
    ∀ (rest : List Msg) (i : Nat) (req : Msg) (filepath : String) (w : World)
      (c : List Byte), Disk.get w.disk file = some (.file c) →
      (FileManager.PostFile.loop ctx writes .eof file i req rest filepath w).err = none
        ∧ (FileManager.PostFile.loop ctx writes .eof file i req rest filepath w).success = true
        ∧ Disk.get (FileManager.PostFile.loop ctx writes .eof file i req rest filepath
              w).world.disk file
            = some (.file (c ++ ((req :: rest).map Msg.chunk).flatten))
        ∧ ∀ k, k ≠ file →
            Disk.get (FileManager.PostFile.loop ctx writes .eof file i req rest filepath
                w).world.disk k
              = Disk.get w.disk k := by
  intro rest
  induction rest with
  | nil =>
    intro i req filepath w c hfile
    obtain ⟨hok, hnew, hother⟩ := fileWrite_ok w file req.chunk c hfile
    have hpair : fileWrite w file req.chunk none
        = ((fileWrite w file req.chunk none).1, true) := by
      rw [← hok]
    unfold FileManager.PostFile.loop
    rw [hlive, hwrite]
    simp only
    rw [hpair]
    simp only
    exact ⟨trivial, trivial, by simpa using hnew, hother⟩
  | cons next rest1 ih =>
    intro i req filepath w c hfile
    obtain ⟨hok, hnew, hother⟩ := fileWrite_ok w file req.chunk c hfile
    have hpair : fileWrite w file req.chunk none
        = ((fileWrite w file req.chunk none).1, true) := by
      rw [← hok]
    obtain ⟨h1, h2, h3, h4⟩ := ih (i + 1) next next.fileName
      (fileWrite w file req.chunk none).1 (c ++ req.chunk) hnew
    unfold FileManager.PostFile.loop
    rw [hlive, hwrite]
    simp only
    rw [hpair]
    simp only
    refine ⟨h1, h2, ?_, ?_⟩
    · rw [h3]
      simp [List.append_assoc]
    · intro k hk
      rw [h4 k hk, hother k hk]

/-- The receive loop of the client's `GetFile` on a stream ending with end-of-stream appends
every chunk, in order, to what it holds. -/
theorem Client_GetFile_loop_eof (chunks : List (List Byte)) :
    ∀ res : List Byte, Client.GetFile.loop .eof chunks res = (res ++ chunks.flatten, none) := by
  induction chunks with
  | nil => intro res; simp [Client.GetFile.loop]
  | cons c rest ih => intro res; simp [Client.GetFile.loop, ih, List.append_assoc]

/-- A successful create: for an absent path under the root whose parent directory exists,
with the context live, every write succeeding and the stream ending with end-of-input,
`PostFile` returns nil and the new file holds the chunks concatenated in order. -/
theorem PostFile_creates (env : Resolver) (ctx : Context) (writes : Nat → Option Nat)
    (w : World) (p : String) (k : AbsPath) (c0 : List Byte) (rest : List Msg)
    (hname : env.underRoot p = some k) (habsent : Disk.get w.disk k = none)
    (hparent : k ≠ [] ∧ Disk.isDir w.disk k.dropLast = true)
    (hentry : ctx.entry = none) (hlive : ∀ i, ctx.tick i = .live)
    (hwrite : ∀ i, writes i = none) :
    (FileManager.PostFile env ctx writes ⟨⟨p, c0⟩ :: rest, .eof⟩ w).1 = none
      ∧ Disk.get (FileManager.PostFile env ctx writes ⟨⟨p, c0⟩ :: rest, .eof⟩ w).2.disk k
          = some (.file ((⟨p, c0⟩ :: rest).map Msg.chunk).flatten) := by
  obtain ⟨h1, h2, h3, _⟩ := PostFile_loop_ok ctx writes k hlive hwrite rest 0 ⟨p, c0⟩ p
    { disk := Disk.put w.disk k (.file []), ops := w.ops ++ [.create k] } []
    (Disk.get_put_self _ _ _)
  have hrun : FileManager.PostFile env ctx writes ⟨⟨p, c0⟩ :: rest, .eof⟩ w
      = ((FileManager.PostFile.loop ctx writes .eof k 0 ⟨p, c0⟩ rest p
            { disk := Disk.put w.disk k (.file []), ops := w.ops ++ [.create k] }).err,
         FileManager.PostFile.cleanup env (FileManager.PostFile.loop ctx writes .eof k 0
            ⟨p, c0⟩ rest p
            { disk := Disk.put w.disk k (.file []), ops := w.ops ++ [.create k] })) := by
    simp [FileManager.PostFile, hentry, Root.Stat, Root.Create, hname, habsent, hparent]
  rw [hrun]
  refine ⟨h1, ?_⟩
  simp only [FileManager.PostFile.cleanup, h2, if_true]
  simpa using h3

/-- C8 as amended. Upload/download round trip: a non-empty sequence of chunks streamed to
engine `PostFile` for an absent path `p` that resolves under the root and whose parent
directory exists, with the context live, every write succeeding and the stream ending with
end-of-input, is stored; a following `GetFile(p)` (context live, no read failing, every send
succeeding, whatever the sizes of the reads) sends chunks which the gateway client's
`GetFile` reassembles into exactly the concatenation of the uploaded chunks: none is
dropped, duplicated or reordered. -/
theorem C8_upload_download_round_trip (env : Resolver) (w : World) (p : String) (k : AbsPath)
    (c0 : List Byte) (rest : List Msg)
    (ctx1 : Context) (writes : Nat → Option Nat)
    (ctx2 : Context) (reads : Nat → ReadStep) (sendOk : Nat → Bool)
    (hname : env.underRoot p = some k) (habsent : Disk.get w.disk k = none)
    (hparent : k ≠ [] ∧ Disk.isDir w.disk k.dropLast = true)
    (hentry1 : ctx1.entry = none) (hlive1 : ∀ i, ctx1.tick i = .live)
    (hwrite : ∀ i, writes i = none)
    (hentry2 : ctx2.entry = none) (hlive2 : ∀ i, ctx2.tick i = .live)
    (hread : ∀ i, reads i ≠ .fail) (hsend : ∀ i, sendOk i = true) :
    (FileManager.PostFile env ctx1 writes ⟨⟨p, c0⟩ :: rest, .eof⟩ w).1 = none
      ∧ ∃ sent,
          FileManager.GetFile env ctx2 reads sendOk p
              (FileManager.PostFile env ctx1 writes ⟨⟨p, c0⟩ :: rest, .eof⟩ w).2.disk
            = some (none, sent)
          ∧ Client.GetFile none (.ok (ServerStream.ofHandler sent (serverAPI.GetFile none)))
            = (((⟨p, c0⟩ :: rest).map Msg.chunk).flatten, none) := by
  obtain ⟨hnil, hstored⟩ :=
    PostFile_creates env ctx1 writes w p k c0 rest hname habsent hparent hentry1 hlive1 hwrite
  obtain ⟨sent, hrun, hjoin⟩ :=
    GetFile_loop_returns ctx2 reads sendOk (((⟨p, c0⟩ :: rest).map Msg.chunk).flatten)
      hlive2 hread hsend ((((⟨p, c0⟩ :: rest).map Msg.chunk).flatten).length + 1) 0 0 []
      (by omega)
  refine ⟨hnil, sent, ?_, ?_⟩
  · simp only [FileManager.GetFile, hentry2, Root.Stat, Root.Open, hname, hstored]
    simpa using hrun
  · simp only [serverAPI.GetFile, ServerStream.ofHandler, Client.GetFile,
      Client_GetFile_loop_eof]
    simpa using hjoin

/-- C8, the claim fails: on a root that has no directory `a`, the path `a/b.txt` is absent,
no write fails and the stream ends with end-of-input, yet `PostFile` refuses the upload with
`ErrBadRequest` and changes nothing (`root.Create` does not make the parent directory); the
following `GetFile` fails, the facade reports `NotFound`, and the gateway client returns a
nil payload, not the uploaded bytes. -/
theorem C8_upload_needs_parent_directory :
    treeHost.underRoot "a/b.txt" = some ["srv", "files", "a", "b.txt"]
    ∧ Disk.get demoWorld.disk ["srv", "files", "a", "b.txt"] = none
    ∧ FileManager.PostFile treeHost Context.live (fun _ => none)
        ⟨[⟨"a/b.txt", [1, 2]⟩, ⟨"a/b.txt", [3]⟩], .eof⟩ demoWorld
      = (some ⟨"filemanager.PostFile", .ErrBadRequest⟩, demoWorld)
    ∧ FileManager.GetFile treeHost Context.live (fun _ => .upTo 4096) (fun _ => true) "a/b.txt"
        demoWorld.disk
      = some (some ⟨"filemanager.GetFile", .ErrBadRequest⟩, [])
    ∧ Client.GetFile none (.ok (ServerStream.ofHandler []
        (serverAPI.GetFile (some ⟨"filemanager.GetFile", .ErrBadRequest⟩))))
      = ([], some (.status .NotFound)) := by
  decide

/-- C8 as amended, at the scenario of the spec: with the directory `a` present under the
root, the 10000 bytes sent to `a/b.txt` as chunks of 4096, 4096 and 1808 bytes come back as
the identical 10000 bytes. -/
theorem C8_upload_download_round_trip_witness :
    ((scenarioUpload.map Msg.chunk).flatten.length = 10000
      ∧ scenarioUpload.map (fun m => m.chunk.length) = [4096, 4096, 1808])
    ∧ (FileManager.PostFile treeHost Context.live (fun _ => none) ⟨scenarioUpload, .eof⟩
        nestedWorld).1 = none
    ∧ ∃ sent,
        FileManager.GetFile treeHost Context.live (fun _ => .upTo 4096) (fun _ => true)
            "a/b.txt"
            (FileManager.PostFile treeHost Context.live (fun _ => none) ⟨scenarioUpload, .eof⟩
              nestedWorld).2.disk
          = some (none, sent)
        ∧ Client.GetFile none (.ok (ServerStream.ofHandler sent (serverAPI.GetFile none)))
          = ((scenarioUpload.map Msg.chunk).flatten, none) :=
  ⟨by
      simp only [scenarioUpload, List.map_cons, List.map_nil, List.flatten_cons,
        List.flatten_nil, List.length_append, List.length_replicate, List.length_nil]
      decide,
    C8_upload_download_round_trip treeHost nestedWorld "a/b.txt"
      ["srv", "files", "a", "b.txt"] (List.replicate 4096 1)
      [⟨"a/b.txt", List.replicate 4096 2⟩, ⟨"a/b.txt", List.replicate 1808 3⟩]
      Context.live (fun _ => none) Context.live (fun _ => .upTo 4096) (fun _ => true)
      (by decide) (by decide) (by decide) rfl (fun _ => rfl) (fun _ => rfl) rfl
      (fun _ => rfl) (fun _ => by simp) (fun _ => rfl)⟩

/-! ## The RPC facade -/

/-- C9. RPC facade classification: for every engine error `e`, `serverAPI.PostFile` and
`serverAPI.PutFile` return `DataLoss` when `e` is `ErrReceiveFile`, `InvalidArgument` when
`e` is `ErrBadRequest` and `Internal` otherwise; `serverAPI.GetFile` returns `NotFound` for
`ErrBadRequest` and `Internal` otherwise; `serverAPI.DeleteFile` returns `InvalidArgument`
for `ErrBadRequest` and `Internal` otherwise; a nil engine error gives a nil status in all
four. -/
theorem C9_facade_classification (e : Error) :
    (serverAPI.PostFile (some e)).status
        = some (if errorsIs e .ErrReceiveFile then Code.DataLoss
            else if errorsIs e .ErrBadRequest then Code.InvalidArgument else Code.Internal)
    ∧ (serverAPI.PutFile (some e)).status
        = some (if errorsIs e .ErrReceiveFile then Code.DataLoss
            else if errorsIs e .ErrBadRequest then Code.InvalidArgument else Code.Internal)
    ∧ serverAPI.GetFile (some e)
        = some (if errorsIs e .ErrBadRequest then Code.NotFound else Code.Internal)
    ∧ serverAPI.DeleteFile (some e)
        = some (if errorsIs e .ErrBadRequest then Code.InvalidArgument else Code.Internal)
    ∧ (serverAPI.PostFile none).status = none ∧ (serverAPI.PutFile none).status = none
    ∧ serverAPI.GetFile none = none ∧ serverAPI.DeleteFile none = none := by
  obtain ⟨op, cause⟩ := e
  cases cause <;>
    simp [serverAPI.PostFile, serverAPI.PutFile, serverAPI.GetFile, serverAPI.DeleteFile,
      serverAPI.uploadStatus, errorsIs]

/-- C10, the claim fails: on the demo host a `GetFile` of `a.txt` and a `PostFile` of
`new.txt` whose deadline has expired at the first loop check return the wrapped
`context.DeadlineExceeded`, and the facade reports exactly that error as status `Internal`. -/
theorem C10_deadline_is_reported_Internal :
    FileManager.GetFile demoHost ⟨none, fun _ => .done (some .DeadlineExceeded)⟩
        (fun _ => .upTo 4096) (fun _ => true) "a.txt" demoDisk
      = some (some ⟨"filemanager.GetFile", .ctx .DeadlineExceeded⟩, [])
    ∧ serverAPI.GetFile (some ⟨"filemanager.GetFile", .ctx .DeadlineExceeded⟩)
      = some Code.Internal
    ∧ (FileManager.PostFile demoHost ⟨none, fun _ => .done (some .DeadlineExceeded)⟩
        (fun _ => none) ⟨[⟨"new.txt", [1]⟩], .eof⟩ demoWorld).1
      = some ⟨"filemanager.PostFile", .ctx .DeadlineExceeded⟩
    ∧ (serverAPI.PostFile (some ⟨"filemanager.PostFile", .ctx .DeadlineExceeded⟩)).status
      = some Code.Internal := by
  decide

/-- An engine error that wraps a context error (deadline expired or cancelled) is none of
the three sentinels, and each of `serverAPI.GetFile`, `serverAPI.PostFile` and
`serverAPI.PutFile` reports it as status `Internal`. -/
theorem facade_context_error_is_Internal (err : Error) (e : CtxErr)
    (hctx : err.cause = .ctx e) :
    errorsIs err .ErrReceiveFile = false ∧ errorsIs err .ErrBadRequest = false
      ∧ errorsIs err .ErrInternal = false
      ∧ serverAPI.GetFile (some err) = some Code.Internal
      ∧ (serverAPI.PostFile (some err)).status = some Code.Internal
      ∧ (serverAPI.PutFile (some err)).status = some Code.Internal := by
  obtain ⟨op, cause⟩ := err
  simp only at hctx
  subst hctx
  simp [serverAPI.PostFile, serverAPI.PutFile, serverAPI.GetFile, serverAPI.uploadStatus,
    errorsIs]

/-- The read loop of `GetFile` started at iteration `i`: when the next `k` iterations find
the context live, their reads and sends succeed and the file still has data for them, and
the check of iteration `i + k` finds the context done with error `e`, the loop returns that
context error wrapped, after sending `k` chunks. -/
theorem GetFile_loop_aborts (ctx : Context) (reads : Nat → ReadStep) (sendOk : Nat → Bool)
    (content : List Byte) (e : CtxErr) :
    ∀ (k fuel i pos : Nat) (sent : List (List Byte)), k < fuel →
      (∀ j, j < k → ctx.tick (i + j) = .live ∧ reads (i + j) ≠ .fail ∧ sendOk (i + j) = true) →
      ctx.tick (i + k) = .done (some e) →
      pos + k * bufSize < content.length + bufSize →
      ∃ more, FileManager.GetFile.loop ctx reads sendOk content fuel i pos sent
          = some (some ⟨"filemanager.GetFile", .ctx e⟩, sent ++ more)
        ∧ more.length = k := by
  intro k
  induction k with
  | zero =>
    intro fuel i pos sent hfuel _ hdone _
    obtain ⟨f, rfl⟩ : ∃ f, fuel = f + 1 := ⟨fuel - 1, by omega⟩
    refine ⟨[], ?_, rfl⟩
    rw [Nat.add_zero] at hdone
    simp [FileManager.GetFile.loop, hdone]
  | succ k ih =>
    intro fuel i pos sent hfuel hok hdone hdata
    obtain ⟨f, rfl⟩ : ∃ f, fuel = f + 1 := ⟨fuel - 1, by omega⟩
    obtain ⟨hlive, hread, hsend⟩ := hok 0 (Nat.succ_pos k)
    rw [Nat.add_zero] at hlive hread hsend
    obtain ⟨n, hn⟩ : ∃ n, reads i = .upTo n := by
      cases hr : reads i with
      | fail => exact absurd hr hread
      | upTo n => exact ⟨n, rfl⟩
    have hpos : ¬ content.length ≤ pos := by
      simp only [bufSize] at hdata
      omega
    have hlen : ((content.drop pos).take
        (max 1 (min n (min bufSize (content.length - pos))))).length
        = max 1 (min n (min bufSize (content.length - pos))) := by
      simp only [List.length_take, List.length_drop]
      omega
    obtain ⟨more, hrun, hcount⟩ := ih f (i + 1)
      (pos + max 1 (min n (min bufSize (content.length - pos))))
      (sent ++ [(content.drop pos).take (max 1 (min n (min bufSize (content.length - pos))))])
      (by omega)
      (fun j hj => by
        have h := hok (j + 1) (by omega)
        have hidx : i + (j + 1) = i + 1 + j := by omega
        rw [hidx] at h
        exact h)
      (by
        have hidx : i + (k + 1) = i + 1 + k := by omega
        rw [hidx] at hdone
        exact hdone)
      (by
        simp only [bufSize] at hdata ⊢
        omega)
    refine ⟨(content.drop pos).take (max 1 (min n (min bufSize (content.length - pos))))
      :: more, ?_, by simp [hcount]⟩
    simp only [FileManager.GetFile.loop, hlive, hn, fileRead, hpos, if_false, hsend, if_true,
      hlen]
    rw [hrun]
    simp

/-- The write loop of `PostFile` with message `req` in hand at iteration `i`: when the next
`k` iterations find the context live and their writes succeed, the receiver still holds `k`
messages, and the check of iteration `i + k` finds the context done with error `e`, the loop
returns that context error wrapped, with `success` still set. -/
theorem PostFile_loop_aborts (ctx : Context) (writes : Nat → Option Nat) (fin : RecvEnd)
    (file : AbsPath) (e : CtxErr) :
    ∀ (k i : Nat) (req : Msg) (rest : List Msg) (filepath : String) (w : World)
      (c : List Byte), Disk.get w.disk file = some (.file c) → k ≤ rest.length →
      (∀ j, j < k → ctx.tick (i + j) = .live ∧ writes (i + j) = none) →
      ctx.tick (i + k) = .done (some e) →
      (FileManager.PostFile.loop ctx writes fin file i req rest filepath w).err
          = some ⟨"filemanager.PostFile", .ctx e⟩
        ∧ (FileManager.PostFile.loop ctx writes fin file i req rest filepath w).success
          = true := by
  intro k
  induction k with
  | zero =>
    intro i req rest filepath w c _ _ _ hdone
    rw [Nat.add_zero] at hdone
    unfold FileManager.PostFile.loop
    rw [hdone]
    exact ⟨rfl, rfl⟩
  | succ k ih =>
    intro i req rest filepath w c hfile hrest hok hdone
    obtain ⟨hlive, hwrite⟩ := hok 0 (Nat.succ_pos k)
    rw [Nat.add_zero] at hlive hwrite
    obtain ⟨next, rest1, rfl⟩ : ∃ next rest1, rest = next :: rest1 := by
      cases rest with
      | nil => simp at hrest
      | cons next rest1 => exact ⟨next, rest1, rfl⟩
    obtain ⟨hwok, hnew, _⟩ := fileWrite_ok w file req.chunk c hfile
    have hpair : fileWrite w file req.chunk none
        = ((fileWrite w file req.chunk none).1, true) := by
      rw [← hwok]
    have h := ih (i + 1) next rest1 next.fileName (fileWrite w file req.chunk none).1
      (c ++ req.chunk) hnew (by simpa using hrest)
      (fun j hj => by
        have h := hok (j + 1) (by omega)
        have hidx : i + (j + 1) = i + 1 + j := by omega
        rw [hidx] at h
        exact h)
      (by
        have hidx : i + (k + 1) = i + 1 + k := by omega
        rw [hidx] at hdone
        exact hdone)
    unfold FileManager.PostFile.loop
    rw [hlive, hwrite]
    simp only
    rw [hpair]
    exact h

/-- The write loop of `PutFile` with message `req` in hand at iteration `i`: under the
conditions of `PostFile_loop_aborts` it returns the context error wrapped. -/
theorem PutFile_loop_aborts (ctx : Context) (writes : Nat → Option Nat) (fin : RecvEnd)
    (file : AbsPath) (e : CtxErr) :
    ∀ (k i : Nat) (req : Msg) (rest : List Msg) (w : World) (c : List Byte),
      Disk.get w.disk file = some (.file c) → k ≤ rest.length →
      (∀ j, j < k → ctx.tick (i + j) = .live ∧ writes (i + j) = none) →
      ctx.tick (i + k) = .done (some e) →
      (FileManager.PutFile.loop ctx writes fin file i req rest w).1
        = some ⟨"filemanager.UpdateFile", .ctx e⟩ := by
  intro k
  induction k with
  | zero =>
    intro i req rest w c _ _ _ hdone
    rw [Nat.add_zero] at hdone
    unfold FileManager.PutFile.loop
    rw [hdone]
  | succ k ih =>
    intro i req rest w c hfile hrest hok hdone
    obtain ⟨hlive, hwrite⟩ := hok 0 (Nat.succ_pos k)
    rw [Nat.add_zero] at hlive hwrite
    obtain ⟨next, rest1, rfl⟩ : ∃ next rest1, rest = next :: rest1 := by
      cases rest with
      | nil => simp at hrest
      | cons next rest1 => exact ⟨next, rest1, rfl⟩
    obtain ⟨hwok, hnew, _⟩ := fileWrite_ok w file req.chunk c hfile
    have hpair : fileWrite w file req.chunk none
        = ((fileWrite w file req.chunk none).1, true) := by
      rw [← hwok]
    have h := ih (i + 1) next rest1 (fileWrite w file req.chunk none).1
      (c ++ req.chunk) hnew (by simpa using hrest)
      (fun j hj => by
        have h := hok (j + 1) (by omega)
        have hidx : i + (j + 1) = i + 1 + j := by omega
        rw [hidx] at h
        exact h)
      (by
        have hidx : i + (k + 1) = i + 1 + k := by omega
        rw [hidx] at hdone
        exact hdone)
    unfold FileManager.PutFile.loop
    rw [hlive, hwrite]
    simp only
    rw [hpair]
    exact h

/-- C10 as amended. When an engine operation aborts because its context deadline expired
or it was cancelled, it returns the context error wrapped and the RPC facade reports that
failure as status `Internal` (it has no deadline or cancelled status). This holds at the
entry check of `GetFile`, `PostFile` and `PutFile`; at a loop check that finds the context
done, whatever the state of the loop then is; and so for the whole operation when the loop
check of iteration `k` finds the context done after `k` iterations that found it live and
succeeded (`GetFile` on a regular file with data for those iterations, `PostFile` on a path
it can create, `PutFile` on a regular file, the receiver holding a message for each of
those iterations). -/
theorem C10_context_abort_is_reported_Internal (env : Resolver) (ctx : Context) (e : CtxErr)
    (k : Nat) (hentry : ctx.entry = none) (hlive : ∀ j, j < k → ctx.tick j = .live)
    (hdone : ctx.tick k = .done (some e)) :
    (∀ (reads : Nat → ReadStep) (sendOk : Nat → Bool) (fileName : String) (d : Disk)
        (file : AbsPath) (content : List Byte),
        env.underRoot fileName = some file → Disk.get d file = some (.file content) →
        (∀ j, j < k → reads j ≠ .fail ∧ sendOk j = true) →
        k * bufSize < content.length + bufSize →
        ∃ sent, FileManager.GetFile env ctx reads sendOk fileName d
            = some (some ⟨"filemanager.GetFile", .ctx e⟩, sent)
          ∧ sent.length = k
          ∧ serverAPI.GetFile (some ⟨"filemanager.GetFile", .ctx e⟩) = some Code.Internal)
    ∧ (∀ (writes : Nat → Option Nat) (p : String) (c0 : List Byte) (rest : List Msg)
        (fin : RecvEnd) (w : World) (file : AbsPath),
        env.underRoot p = some file → Disk.get w.disk file = none →
        (file ≠ [] ∧ Disk.isDir w.disk file.dropLast = true) → k ≤ rest.length →
        (∀ j, j < k → writes j = none) →
        (FileManager.PostFile env ctx writes ⟨⟨p, c0⟩ :: rest, fin⟩ w).1
            = some ⟨"filemanager.PostFile", .ctx e⟩
          ∧ (serverAPI.PostFile
              (FileManager.PostFile env ctx writes ⟨⟨p, c0⟩ :: rest, fin⟩ w).1).status
            = some Code.Internal)
    ∧ (∀ (writes : Nat → Option Nat) (p : String) (c0 : List Byte) (rest : List Msg)
        (fin : RecvEnd) (w : World) (file : AbsPath) (old : List Byte),
        env.underRoot p = some file → Disk.get w.disk file = some (.file old) →
        k ≤ rest.length → (∀ j, j < k → writes j = none) →
        (FileManager.PutFile env ctx writes ⟨⟨p, c0⟩ :: rest, fin⟩ w).1
            = some ⟨"filemanager.UpdateFile", .ctx e⟩
          ∧ (serverAPI.PutFile
              (FileManager.PutFile env ctx writes ⟨⟨p, c0⟩ :: rest, fin⟩ w).1).status
            = some Code.Internal)
    ∧ (∀ (ctx0 : Context) (reads : Nat → ReadStep) (sendOk : Nat → Bool)
        (writes : Nat → Option Nat) (fileName : String) (recv : Receiver) (w : World),
        ctx0.entry = some e →
        FileManager.GetFile env ctx0 reads sendOk fileName w.disk
            = some (some ⟨"filemanager.GetFile", .ctx e⟩, [])
          ∧ FileManager.PostFile env ctx0 writes recv w
            = (some ⟨"filemanager.PostFile", .ctx e⟩, w)
          ∧ FileManager.PutFile env ctx0 writes recv w
            = (some ⟨"filemanager.UpdateFile", .ctx e⟩, w)
          ∧ serverAPI.GetFile (some ⟨"filemanager.GetFile", .ctx e⟩) = some Code.Internal
          ∧ (serverAPI.PostFile (some ⟨"filemanager.PostFile", .ctx e⟩)).status
            = some Code.Internal
          ∧ (serverAPI.PutFile (some ⟨"filemanager.UpdateFile", .ctx e⟩)).status
            = some Code.Internal)
    ∧ (∀ (reads : Nat → ReadStep) (sendOk : Nat → Bool) (content : List Byte)
        (fuel pos : Nat) (sent : List (List Byte)),
        FileManager.GetFile.loop ctx reads sendOk content (fuel + 1) k pos sent
          = some (some ⟨"filemanager.GetFile", .ctx e⟩, sent))
    ∧ (∀ (writes : Nat → Option Nat) (fin : RecvEnd) (file : AbsPath) (req : Msg)
        (rest : List Msg) (filepath : String) (w : World),
        FileManager.PostFile.loop ctx writes fin file k req rest filepath w
            = ⟨some ⟨"filemanager.PostFile", .ctx e⟩, true, filepath, w⟩
          ∧ FileManager.PutFile.loop ctx writes fin file k req rest w
            = (some ⟨"filemanager.UpdateFile", .ctx e⟩, w)) := by
  refine ⟨?_, ?_, ?_, ?_, ?_, ?_⟩
  · intro reads sendOk fileName d file content hname hfile hok hdata
    obtain ⟨more, hrun, hcount⟩ := GetFile_loop_aborts ctx reads sendOk content e k
      (content.length + 1) 0 0 []
      (by simp only [bufSize] at hdata; omega)
      (fun j hj => by
        rw [Nat.zero_add]
        exact ⟨hlive j hj, hok j hj⟩)
      (by rw [Nat.zero_add]; exact hdone)
      (by omega)
    refine ⟨more, ?_, hcount, rfl⟩
    simp only [FileManager.GetFile, hentry, Root.Stat, Root.Open, hname, hfile]
    simpa using hrun
  · intro writes p c0 rest fin w file hname habsent hparent hrest hwrite
    obtain ⟨herr, _⟩ := PostFile_loop_aborts ctx writes fin file e k 0 ⟨p, c0⟩ rest p
      { disk := Disk.put w.disk file (.file []), ops := w.ops ++ [.create file] } []
      (Disk.get_put_self _ _ _) hrest
      (fun j hj => by
        rw [Nat.zero_add]
        exact ⟨hlive j hj, hwrite j hj⟩)
      (by rw [Nat.zero_add]; exact hdone)
    have hrun : (FileManager.PostFile env ctx writes ⟨⟨p, c0⟩ :: rest, fin⟩ w).1
        = some ⟨"filemanager.PostFile", .ctx e⟩ := by
      simp only [FileManager.PostFile, hentry, Root.Stat, Root.Create, hname, habsent]
      simpa [hparent] using herr
    rw [hrun]
    exact ⟨rfl, rfl⟩
  · intro writes p c0 rest fin w file old hname hfile hrest hwrite
    have herr := PutFile_loop_aborts ctx writes fin file e k 0 ⟨p, c0⟩ rest
      { disk := Disk.put w.disk file (.file []), ops := w.ops ++ [.create file] } []
      (Disk.get_put_self _ _ _) hrest
      (fun j hj => by
        rw [Nat.zero_add]
        exact ⟨hlive j hj, hwrite j hj⟩)
      (by rw [Nat.zero_add]; exact hdone)
    have hrun : (FileManager.PutFile env ctx writes ⟨⟨p, c0⟩ :: rest, fin⟩ w).1
        = some ⟨"filemanager.UpdateFile", .ctx e⟩ := by
      simp only [FileManager.PutFile, hentry, Root.Stat, Root.Create, hname, hfile]
      simpa using herr
    rw [hrun]
    exact ⟨rfl, rfl⟩
  · intro ctx0 reads sendOk writes fileName recv w h0
    refine ⟨?_, ?_, ?_, rfl, rfl, rfl⟩
    · simp [FileManager.GetFile, h0]
    · simp [FileManager.PostFile, h0]
    · simp [FileManager.PutFile, h0]
  · intro reads sendOk content fuel pos sent
    simp [FileManager.GetFile.loop, hdone]
  · intro writes fin file req rest filepath w
    constructor
    · unfold FileManager.PostFile.loop
      rw [hdone]
    · unfold FileManager.PutFile.loop
      rw [hdone]

/-- C10 as amended, on the demo host with a deadline that fires at the second loop check:
`GetFile` of `a.txt` after one chunk, `PostFile` of `new.txt` and `PutFile` of `a.txt` after
one write return the wrapped `DeadlineExceeded`, which the facade reports as `Internal`; so
do the three operations entered with the context already expired. -/
theorem C10_context_abort_is_reported_Internal_witness :
    (∃ sent, FileManager.GetFile demoHost
          ⟨none, fun i => if i = 0 then .live else .done (some .DeadlineExceeded)⟩
          (fun _ => .upTo 4096) (fun _ => true) "a.txt" demoDisk
        = some (some ⟨"filemanager.GetFile", .ctx .DeadlineExceeded⟩, sent)
      ∧ sent.length = 1
      ∧ serverAPI.GetFile (some ⟨"filemanager.GetFile", .ctx .DeadlineExceeded⟩)
        = some Code.Internal)
    ∧ ((FileManager.PostFile demoHost
          ⟨none, fun i => if i = 0 then .live else .done (some .DeadlineExceeded)⟩
          (fun _ => none) ⟨⟨"new.txt", [1, 2]⟩ :: [⟨"new.txt", [3]⟩], .eof⟩ demoWorld).1
        = some ⟨"filemanager.PostFile", .ctx .DeadlineExceeded⟩
      ∧ (serverAPI.PostFile (FileManager.PostFile demoHost
          ⟨none, fun i => if i = 0 then .live else .done (some .DeadlineExceeded)⟩
          (fun _ => none) ⟨⟨"new.txt", [1, 2]⟩ :: [⟨"new.txt", [3]⟩], .eof⟩ demoWorld).1).status
        = some Code.Internal)
    ∧ ((FileManager.PutFile demoHost
          ⟨none, fun i => if i = 0 then .live else .done (some .DeadlineExceeded)⟩
          (fun _ => none) ⟨⟨"a.txt", [4]⟩ :: [⟨"a.txt", [5, 6]⟩], .eof⟩ demoWorld).1
        = some ⟨"filemanager.UpdateFile", .ctx .DeadlineExceeded⟩
      ∧ (serverAPI.PutFile (FileManager.PutFile demoHost
          ⟨none, fun i => if i = 0 then .live else .done (some .DeadlineExceeded)⟩
          (fun _ => none) ⟨⟨"a.txt", [4]⟩ :: [⟨"a.txt", [5, 6]⟩], .eof⟩ demoWorld).1).status
        = some Code.Internal)
    ∧ FileManager.PutFile demoHost ⟨some .DeadlineExceeded, fun _ => .live⟩ (fun _ => none)
        ⟨[⟨"a.txt", [4]⟩], .eof⟩ demoWorld
      = (some ⟨"filemanager.UpdateFile", .ctx .DeadlineExceeded⟩, demoWorld) := by
  have h := C10_context_abort_is_reported_Internal demoHost
    ⟨none, fun i => if i = 0 then .live else .done (some .DeadlineExceeded)⟩
    .DeadlineExceeded 1 rfl
    (fun j hj => by
      have hj0 : j = 0 := by omega
      subst hj0
      rfl)
    rfl
  refine ⟨?_, ?_, ?_, ?_⟩
  · exact h.1 (fun _ => .upTo 4096) (fun _ => true) "a.txt" demoDisk
      ["srv", "files", "a.txt"] [1, 2, 3] (by decide) (by decide)
      (fun _ _ => ⟨by simp, rfl⟩) (by decide)
  · exact h.2.1 (fun _ => none) "new.txt" [1, 2] [⟨"new.txt", [3]⟩] .eof demoWorld
      ["srv", "files", "new.txt"] (by decide) (by decide) (by decide) (by decide)
      (fun _ _ => rfl)
  · exact h.2.2.1 (fun _ => none) "a.txt" [4] [⟨"a.txt", [5, 6]⟩] .eof demoWorld
      ["srv", "files", "a.txt"] [1, 2, 3] (by decide) (by decide) (by decide)
      (fun _ _ => rfl)
  · exact (h.2.2.2.1 ⟨some .DeadlineExceeded, fun _ => .live⟩ (fun _ => .upTo 4096)
      (fun _ => true) (fun _ => none) "a.txt" ⟨[⟨"a.txt", [4]⟩], .eof⟩ demoWorld rfl).2.2.1

/-! ## The HTTP bridge -/

/-- The GET, POST and PUT handlers answer a path that is not valid with 400 and make no
call to the gateway client; the DELETE handler also answers 400. -/
theorem handlers_reject_invalid_path (filepath : String) (hbad : fs.ValidPath filepath = false)
    (getFile : String → List Byte × Option ClientErr) (upload : String → Option ClientErr)
    (formFile : Bool) :
    NewGet getFile filepath = ⟨[400], [], []⟩
      ∧ NewPost upload filepath formFile = ⟨[400], [], []⟩
      ∧ NewPut upload filepath formFile = ⟨[400], [], []⟩
      ∧ (NewDelete upload filepath).status = some 400 := by
  refine ⟨?_, ?_, ?_, ?_⟩
  · simp [NewGet, hbad, httperrors.Error]
  · simp [NewPost, hbad, httperrors.Error]
  · simp [NewPut, hbad, httperrors.Error]
  · cases h : upload filepath <;>
      simp [NewDelete, hbad, httperrors.Error, Response.status, h]

/-- C11, the code at a failing input. A DELETE request with `filepath=../secret`, which is
not a valid path, is answered 400, yet the handler goes on and calls `client.DeleteFile`
with that path, whether the call then fails or succeeds; the GET handler on the same path
makes no call. -/
theorem C11_NewDelete_calls_client_on_invalid_path :
    fs.ValidPath "../secret" = false
    ∧ NewDelete (fun _ => some (.status .InvalidArgument)) "../secret"
        = ⟨[400, 400], [], [.DeleteFile "../secret"]⟩
    ∧ NewDelete (fun _ => none) "../secret" = ⟨[400, 204], [], [.DeleteFile "../secret"]⟩
    ∧ NewGet (fun _ => ([], none)) "../secret" = ⟨[400], [], []⟩ := by
  decide

/-- C12, the claim fails: on the valid path `a.txt` the GET handler answers a gateway
failure with status invalid-argument by 500, not 400, and the POST, PUT and DELETE handlers
answer a failure with status not-found by 500, not 404. -/
theorem C12_status_table_is_per_handler :
    NewGet (fun _ => ([], some (.status .InvalidArgument))) "a.txt"
        = ⟨[500], [], [.GetFile "a.txt"]⟩
    ∧ NewPost (fun _ => some (.status .NotFound)) "a.txt" true
        = ⟨[500], [], [.PostFile "a.txt"]⟩
    ∧ NewPut (fun _ => some (.status .NotFound)) "a.txt" true
        = ⟨[500], [], [.PutFile "a.txt"]⟩
    ∧ NewDelete (fun _ => some (.status .NotFound)) "a.txt"
        = ⟨[500], [], [.DeleteFile "a.txt"]⟩ := by
  decide

/-- C12 as amended. For a request with a valid path (and, for POST and PUT, a form file)
whose call to the gateway client fails with `err`, exactly one status is written: the GET
handler writes 404 when the RPC status is not-found and 500 for every other code; the POST,
PUT and DELETE handlers write 400 when the RPC status is invalid-argument and 500 for every
other code (data-loss, internal, not-found and the rest). -/
theorem C12_handler_status_tables (filepath : String) (hvalid : fs.ValidPath filepath = true)
    (err : ClientErr) (body : List Byte) :
    (NewGet (fun _ => (body, some err)) filepath).headers
        = [if status.Code err = .NotFound then 404 else 500]
    ∧ (NewPost (fun _ => some err) filepath true).headers
        = [if status.Code err = .InvalidArgument then 400 else 500]
    ∧ (NewPut (fun _ => some err) filepath true).headers
        = [if status.Code err = .InvalidArgument then 400 else 500]
    ∧ (NewDelete (fun _ => some err) filepath).headers
        = [if status.Code err = .InvalidArgument then 400 else 500] := by
  refine ⟨?_, ?_, ?_, ?_⟩
  · cases h : status.Code err <;> simp [NewGet, hvalid, httperrors.Error, h]
  · cases h : status.Code err <;>
      simp [NewPost, hvalid, httperrors.Error, uploadHttpCode, h]
  · cases h : status.Code err <;>
      simp [NewPut, hvalid, httperrors.Error, uploadHttpCode, h]
  · cases h : status.Code err <;> simp [NewDelete, hvalid, httperrors.Error, h]

/-- C12 as amended, on the valid path `a/b.txt` with a failure of status data-loss. -/
theorem C12_handler_status_tables_witness :
    fs.ValidPath "a/b.txt" = true
    ∧ (NewGet (fun _ => ([], some (.status .DataLoss))) "a/b.txt").headers
        = [if status.Code (.status .DataLoss) = .NotFound then 404 else 500]
    ∧ (NewPost (fun _ => some (.status .DataLoss)) "a/b.txt" true).headers
        = [if status.Code (.status .DataLoss) = .InvalidArgument then 400 else 500]
    ∧ (NewPut (fun _ => some (.status .DataLoss)) "a/b.txt" true).headers
        = [if status.Code (.status .DataLoss) = .InvalidArgument then 400 else 500]
    ∧ (NewDelete (fun _ => some (.status .DataLoss)) "a/b.txt").headers
        = [if status.Code (.status .DataLoss) = .InvalidArgument then 400 else 500] :=
  ⟨by decide, C12_handler_status_tables "a/b.txt" (by decide) (.status .DataLoss) []⟩

/-! ## The gateway client -/

/-- The receive loop of the client's `GetFile` on a stream ending with a status error drops
what it holds and returns that error. -/
theorem Client_GetFile_loop_status (c : Code) (chunks : List (List Byte)) :
    ∀ res : List Byte, Client.GetFile.loop (.status c) chunks res = ([], some (.status c)) := by
  induction chunks with
  | nil => intro res; simp [Client.GetFile.loop]
  | cons x rest ih => intro res; simp [Client.GetFile.loop, ih]

/-- C13. Gateway client `GetFile`, on a call started with a live context whose stream was
opened: a stream yielding the chunks `c1 .. cn` and then end-of-stream gives
`(c1 ++ .. ++ cn, nil)`; a stream yielding some chunks and then an error other than
end-of-stream gives a nil payload and that (non-nil) error. -/
theorem C13_Client_GetFile_reassembles (chunks : List (List Byte)) (c : Code) :
    Client.GetFile none (.ok ⟨chunks, .eof⟩) = (chunks.flatten, none)
    ∧ Client.GetFile none (.ok ⟨chunks, .status c⟩) = ([], some (.status c)) := by
  constructor
  · simp [Client.GetFile, Client_GetFile_loop_eof]
  · simp [Client.GetFile, Client_GetFile_loop_status]

/-- A name that `filepath.Localize` accepts is a valid path. -/
theorem Localize_valid (filename : String) (h : filepath.Localize filename = some filename) :
    fs.ValidPath filename = true := by
  unfold filepath.Localize at h
  by_cases hv : fs.ValidPath filename = true
  · exact hv
  · simp [hv] at h

/-- The send loop of the client on a data source of `N < 2^63` bytes whose reads fill the
buffer, with the declared size `N` and every send succeeding: from read `i` on it sends the
successive `bufsize`-byte slices of the rest of the data, each with the file name, and exits
without error. -/
theorem upload_loop_full (content : List Byte) (sends : Nat → Option ClientErr)
    (filename : String) (hsmall : content.length < 9223372036854775808)
    (hsend : ∀ i, sends i = none) :
    ∀ (fuel i : Nat) (msgs : List Msg),
      (content.length - i * bufsize + bufsize - 1) / bufsize ≤ fuel →
      ∃ more, Client.upload.loop (fullReads content) sends filename (content.length : Int)
            fuel i ((min (i * bufsize) content.length : Nat) : Int) msgs
          = some (none, msgs ++ more)
        ∧ more.length = (content.length - i * bufsize + bufsize - 1) / bufsize
        ∧ (∀ j, j < more.length →
            more[j]? = some ⟨filename, (content.drop ((i + j) * bufsize)).take bufsize⟩)
        ∧ (more.map Msg.chunk).flatten = content.drop (i * bufsize) := by
  intro fuel
  induction fuel with
  | zero =>
    intro i msgs hfuel
    have hdone : content.length ≤ i * bufsize := by
      simp only [bufsize] at hfuel ⊢
      omega
    refine ⟨[], ?_, ?_, ?_, ?_⟩
    · have hnot : ¬ (((min (i * bufsize) content.length : Nat) : Int) < (content.length : Int)) := by
        rw [Nat.min_eq_right hdone]
        omega
      rw [Client.upload.loop, if_neg hnot, List.append_nil]
    · simp only [bufsize] at hdone ⊢
      simp only [List.length_nil]
      omega
    · intro j hj
      simp at hj
    · simp [List.drop_eq_nil_of_le hdone]
  | succ fuel ih =>
    intro i msgs hfuel
    by_cases hdone : content.length ≤ i * bufsize
    · refine ⟨[], ?_, ?_, ?_, ?_⟩
      · have hnot : ¬ (((min (i * bufsize) content.length : Nat) : Int)
            < (content.length : Int)) := by
          rw [Nat.min_eq_right hdone]
          omega
        rw [Client.upload.loop, if_neg hnot, List.append_nil]
      · simp only [bufsize] at hdone ⊢
        simp only [List.length_nil]
        omega
      · intro j hj
        simp at hj
      · simp [List.drop_eq_nil_of_le hdone]
    · have hlt : i * bufsize < content.length := by omega
      have hcond : ((min (i * bufsize) content.length : Nat) : Int) < (content.length : Int) := by
        rw [Nat.min_eq_left (by omega)]
        omega
      have hread : fullReads content i = some ((content.drop (i * bufsize)).take bufsize) := by
        simp [fullReads, hlt]
      have hlen : ((content.drop (i * bufsize)).take bufsize).length
          = min bufsize (content.length - i * bufsize) := by
        simp only [List.length_take, List.length_drop]
      have hnext : wrapInt64 (((min (i * bufsize) content.length : Nat) : Int)
            + ((min bufsize (content.length - i * bufsize) : Nat) : Int))
          = ((min ((i + 1) * bufsize) content.length : Nat) : Int) := by
        simp only [wrapInt64, bufsize] at hlt ⊢
        omega
      obtain ⟨more, hrun, hcount, hslice, hjoin⟩ := ih (i + 1)
        (msgs ++ [⟨filename, (content.drop (i * bufsize)).take bufsize⟩])
        (by simp only [bufsize] at hfuel hlt ⊢; omega)
      refine ⟨⟨filename, (content.drop (i * bufsize)).take bufsize⟩ :: more, ?_, ?_, ?_, ?_⟩
      · unfold Client.upload.loop
        rw [if_pos hcond, hread]
        simp only [hsend, List.take_take, Nat.min_self, hlen, hnext]
        rw [hrun]
        simp
      · simp only [List.length_cons, hcount, bufsize] at hlt ⊢
        omega
      · intro j hj
        cases j with
        | zero => simp
        | succ j =>
          have hj1 : j < more.length := by simpa using hj
          rw [List.getElem?_cons_succ, hslice j hj1]
          have hoff : (i + 1 + j) * bufsize = (i + (j + 1)) * bufsize := by ring
          rw [hoff]
      · simp only [List.map_cons, List.flatten_cons, hjoin]
        have hoff : (i + 1) * bufsize = i * bufsize + bufsize := by ring
        rw [hoff, ← List.drop_drop]
        exact List.take_append_drop _ _

/-- C14. Gateway client `PostFile`/`PutFile` chunking: for a path the client accepts and a
data source holding exactly `size = N > 0` bytes whose reads fill the 4096-byte buffer while
that many bytes remain (context live, stream opened, every send succeeding), both functions
return nil after sending exactly `ceil(N / 4096)` messages; message `j` carries the
destination path and bytes `j * 4096 ..` of the source, at most 4096 of them, so that the
chunks concatenated in order are the `N` source bytes and the bytes sent total the declared
size. The loop needs no more than `ceil(N / 4096)` iterations. (The statement also holds for
`N = 0`, with no message.) -/
theorem C14_Client_upload_chunks (content : List Byte) (filename : String)
    (ack : Option Code) (sends : Nat → Option ClientErr) (fuel : Nat)
    (hpath : filepath.Localize filename = some filename)
    (hsmall : content.length < 9223372036854775808)
    (hsend : ∀ i, sends i = none) (hfuel : (content.length + 4096 - 1) / 4096 ≤ fuel) :
    ∃ r, Client.PostFile none none ack (fullReads content) sends (content.length : Int)
          filename fuel = some r
      ∧ Client.PutFile none none ack (fullReads content) sends (content.length : Int)
          filename fuel = some r
      ∧ r.err = none
      ∧ r.sent.length = (content.length + 4096 - 1) / 4096
      ∧ (∀ j, j < r.sent.length →
          r.sent[j]? = some ⟨filename, (content.drop (j * 4096)).take 4096⟩)
      ∧ (∀ m ∈ r.sent, m.fileName = filename ∧ m.chunk.length ≤ 4096)
      ∧ (r.sent.map Msg.chunk).flatten = content
      ∧ ((r.sent.map Msg.chunk).flatten.length : Int) = (content.length : Int) := by
  obtain ⟨more, hrun, hcount, hslice, hjoin⟩ :=
    upload_loop_full content sends filename hsmall hsend fuel 0 []
      (by simpa [bufsize] using hfuel)
  have hvalid : fs.ValidPath filename = true := Localize_valid filename hpath
  have hslice2 : ∀ j, j < more.length →
      more[j]? = some ⟨filename, (content.drop (j * 4096)).take 4096⟩ := by
    intro j hj
    simpa [bufsize] using hslice j hj
  have hjoin2 : (more.map Msg.chunk).flatten = content := by simpa using hjoin
  have hcall : Client.upload none none ack (fullReads content) sends (content.length : Int)
      filename fuel = some ⟨none, more, 1, ack.isSome⟩ := by
    simp only [Client.upload, hpath, Option.getD_some, hvalid]
    simp only [Nat.zero_mul, Nat.zero_min, Nat.cast_zero, List.nil_append] at hrun
    simp [hrun]
  refine ⟨⟨none, more, 1, ack.isSome⟩, hcall, hcall, rfl, ?_, hslice2, ?_, hjoin2, ?_⟩
  · simpa [bufsize] using hcount
  · intro m hm
    obtain ⟨j, hj, hget⟩ := List.getElem_of_mem hm
    have h2 := hslice2 j hj
    rw [List.getElem?_eq_getElem hj, hget] at h2
    injection h2 with h2
    subst h2
    refine ⟨rfl, ?_⟩
    simp only [List.length_take]
    omega
  · simp only [hjoin2]

/-- C14 at `N = 10000` on the path `a/b.txt`: three messages with chunks of 4096, 4096 and
1808 bytes, which concatenate to the 10000 source bytes. -/
theorem C14_Client_upload_chunks_witness :
    ∃ r, Client.PostFile none none none (fullReads (List.replicate 10000 7)) (fun _ => none)
          10000 "a/b.txt" 3 = some r
      ∧ r.err = none
      ∧ r.sent.map (fun m => m.chunk.length) = [4096, 4096, 1808]
      ∧ r.sent.map Msg.fileName = ["a/b.txt", "a/b.txt", "a/b.txt"]
      ∧ (r.sent.map Msg.chunk).flatten = List.replicate 10000 7 := by
  obtain ⟨r, hpost, _, herr, hcount, hslice, _, hjoin, _⟩ :=
    C14_Client_upload_chunks (List.replicate 10000 7) "a/b.txt" none (fun _ => none) 3
      (by decide) (by simp only [List.length_replicate]; decide) (fun _ => rfl)
      (by simp only [List.length_replicate]; decide)
  simp only [List.length_replicate] at hpost hcount
  have hthree : r.sent.length = 3 := by rw [hcount]
  have h0 := hslice 0 (by omega)
  have h1 := hslice 1 (by omega)
  have h2 := hslice 2 (by omega)
  have hsent : r.sent = [⟨"a/b.txt", ((List.replicate 10000 7).drop (0 * 4096)).take 4096⟩,
      ⟨"a/b.txt", ((List.replicate 10000 7).drop (1 * 4096)).take 4096⟩,
      ⟨"a/b.txt", ((List.replicate 10000 7).drop (2 * 4096)).take 4096⟩] := by
    match hs : r.sent, hthree with
    | [a, b, c], _ =>
      rw [hs] at h0 h1 h2
      simp only [List.getElem?_cons_zero, List.getElem?_cons_succ, Option.some.injEq] at h0 h1 h2
      rw [h0, h1, h2]
  refine ⟨r, by exact_mod_cast hpost, herr, ?_, ?_, hjoin⟩
  · rw [hsent]
    simp only [List.map_cons, List.map_nil, List.length_take, List.length_drop,
      List.length_replicate]
    decide
  · rw [hsent]
    rfl

/-- C15. Gateway client upload path validation: for a destination path that is not confined
(`filepath.Localize` fails, or the localized path is not `fs.ValidPath`), `Client.PostFile`
and `Client.PutFile`, on a call started with a live context whose stream was opened, return
an error with status `InvalidArgument` and send no message on the stream. -/
theorem C15_Client_upload_rejects_unconfined_path (filename : String) (ack : Option Code)
    (reads : Nat → Option (List Byte)) (sends : Nat → Option ClientErr) (size : Int)
    (fuel : Nat)
    (hbad : filepath.Localize filename = none
      ∨ ∃ p, filepath.Localize filename = some p ∧ fs.ValidPath p = false) :
    (∃ r, Client.PostFile none none ack reads sends size filename fuel = some r
        ∧ r.err = some (.status .InvalidArgument) ∧ r.sent = [])
    ∧ (∃ r, Client.PutFile none none ack reads sends size filename fuel = some r
        ∧ r.err = some (.status .InvalidArgument) ∧ r.sent = []) := by
  have hcall : Client.upload none none ack reads sends size filename fuel
      = some ⟨some (.status .InvalidArgument), [], 1, ack.isSome⟩ := by
    rcases hbad with hnone | ⟨p, hp, hinvalid⟩
    · have hempty : fs.ValidPath "" = false := by decide
      simp [Client.upload, hnone, hempty]
    · simp [Client.upload, hp, hinvalid]
  exact ⟨⟨_, hcall, rfl, rfl⟩, ⟨_, hcall, rfl, rfl⟩⟩

/-- C15 on the paths `../secret` (a parent-directory element) and `/etc/passwd`
(absolute). -/
theorem C15_Client_upload_rejects_unconfined_path_witness :
    (filepath.Localize "../secret" = none ∧ filepath.Localize "/etc/passwd" = none)
    ∧ ((∃ r, Client.PostFile none none none (fullReads [1, 2]) (fun _ => none) 2 "../secret" 5
          = some r ∧ r.err = some (.status .InvalidArgument) ∧ r.sent = [])
      ∧ (∃ r, Client.PutFile none none none (fullReads [1, 2]) (fun _ => none) 2 "../secret" 5
          = some r ∧ r.err = some (.status .InvalidArgument) ∧ r.sent = []))
    ∧ ((∃ r, Client.PostFile none none none (fullReads [1, 2]) (fun _ => none) 2
          "/etc/passwd" 5
          = some r ∧ r.err = some (.status .InvalidArgument) ∧ r.sent = [])
      ∧ (∃ r, Client.PutFile none none none (fullReads [1, 2]) (fun _ => none) 2
          "/etc/passwd" 5
          = some r ∧ r.err = some (.status .InvalidArgument) ∧ r.sent = [])) :=
  ⟨by decide,
    C15_Client_upload_rejects_unconfined_path "../secret" none (fullReads [1, 2])
      (fun _ => none) 2 5 (Or.inl (by decide)),
    C15_Client_upload_rejects_unconfined_path "/etc/passwd" none (fullReads [1, 2])
      (fun _ => none) 2 5 (Or.inl (by decide))⟩

/-! ## The retry policy -/

/-- C17, the code at a failing input. With the process running inside the root, two create
streams that agree on the first message `new.txt` and on every chunk, and differ only in the
name carried by the second message (`new.txt` against `a.txt`), both fail with `ErrInternal`
when the second write fails; the deferred `os.Remove(filepath)` then removes `new.txt` for
the first stream, and for the second it removes the existing file `a.txt` and leaves
`new.txt` in place. -/
theorem C17_PostFile_cleanup_follows_later_name :
    (FileManager.PostFile rootCwdHost Context.live (fun i => if i = 1 then some 0 else none)
        ⟨[⟨"new.txt", [1]⟩, ⟨"new.txt", [2]⟩], .eof⟩ demoWorld).1
      = some ⟨"filemanager.PostFile", .ErrInternal⟩
    ∧ (FileManager.PostFile rootCwdHost Context.live (fun i => if i = 1 then some 0 else none)
        ⟨[⟨"new.txt", [1]⟩, ⟨"a.txt", [2]⟩], .eof⟩ demoWorld).1
      = some ⟨"filemanager.PostFile", .ErrInternal⟩
    ∧ Root.Stat rootCwdHost
        (FileManager.PostFile rootCwdHost Context.live
          (fun i => if i = 1 then some 0 else none)
          ⟨[⟨"new.txt", [1]⟩, ⟨"new.txt", [2]⟩], .eof⟩ demoWorld).2.disk "new.txt"
      = .error .pathError
    ∧ Root.Stat rootCwdHost
        (FileManager.PostFile rootCwdHost Context.live
          (fun i => if i = 1 then some 0 else none)
          ⟨[⟨"new.txt", [1]⟩, ⟨"a.txt", [2]⟩], .eof⟩ demoWorld).2.disk "new.txt"
      = .ok ⟨false, 1⟩
    ∧ Root.Stat rootCwdHost demoWorld.disk "a.txt" = .ok ⟨false, 3⟩
    ∧ Root.Stat rootCwdHost
        (FileManager.PostFile rootCwdHost Context.live
          (fun i => if i = 1 then some 0 else none)
          ⟨[⟨"new.txt", [1]⟩, ⟨"a.txt", [2]⟩], .eof⟩ demoWorld).2.disk "a.txt"
      = .error .pathError
    ∧ (FileManager.PostFile rootCwdHost Context.live (fun i => if i = 1 then some 0 else none)
        ⟨[⟨"new.txt", [1]⟩, ⟨"a.txt", [2]⟩], .eof⟩ demoWorld).2.ops.getLast?
      = some (.remove ["srv", "files", "a.txt"]) := by
  decide

/-- The facade's `PostFile` calls `SendAndClose` exactly once whatever the engine returned;
its `PutFile` calls it once when the engine returned nil and not at all otherwise. -/
theorem serverAPI_closes (fmErr : Option Error) :
    (serverAPI.PostFile fmErr).closes = 1
      ∧ (serverAPI.PutFile fmErr).closes = if fmErr = none then 1 else 0 := by
  cases fmErr <;> simp [serverAPI.PostFile, serverAPI.PutFile]

/-- C18, the code at a failing input. A replace of the missing `nope.txt` makes the engine
return `ErrBadRequest`; `serverAPI.PutFile` then returns `InvalidArgument` from inside its
`switch` without ever calling `SendAndClose`, where `serverAPI.PostFile` on the same engine
error calls it once. -/
theorem C18_PutFile_error_path_skips_SendAndClose :
    (FileManager.PutFile demoHost Context.live (fun _ => none) ⟨[⟨"nope.txt", [4]⟩], .eof⟩
        demoWorld).1 = some ⟨"filemanager.UpdateFile", .ErrBadRequest⟩
    ∧ serverAPI.PutFile (FileManager.PutFile demoHost Context.live (fun _ => none)
        ⟨[⟨"nope.txt", [4]⟩], .eof⟩ demoWorld).1 = ⟨some .InvalidArgument, 0⟩
    ∧ serverAPI.PostFile (some ⟨"filemanager.PostFile", .ErrBadRequest⟩)
        = ⟨some .InvalidArgument, 1⟩ := by
  decide

/-! ## The final acknowledgement, empty uploads -/

/-- With the declared size `2^63 - 1` and a source delivering 4096 bytes at every read, the
`int64` counter of the send loop stays a multiple of 4096; it wraps around before it can
reach the size, so the loop is still running after any number of iterations. -/
theorem upload_loop_overflow (filename : String) :
    ∀ (fuel i : Nat) (sent : Int) (msgs : List Msg), sent % 4096 = 0 →
      -9223372036854775808 ≤ sent → sent < 9223372036854775808 →
      Client.upload.loop (fun _ => some (List.replicate 4096 0)) (fun _ => none) filename
        9223372036854775807 fuel i sent msgs = none := by
  intro fuel
  induction fuel with
  | zero =>
    intro i sent msgs hmod hlo hhi
    have hlt : sent < 9223372036854775807 := by omega
    rw [Client.upload.loop, if_pos hlt]
  | succ fuel ih =>
    intro i sent msgs hmod hlo hhi
    have hlt : sent < 9223372036854775807 := by omega
    have hlen : (((List.replicate 4096 (0 : Byte)).take bufsize).length : Int) = 4096 := by
      simp only [List.length_take, List.length_replicate, bufsize]
      rfl
    unfold Client.upload.loop
    rw [if_pos hlt]
    simp only [hlen]
    apply ih
    · simp only [wrapInt64]
      omega
    · simp only [wrapInt64]
      omega
    · simp only [wrapInt64]
      omega

/-- With the declared size 1 and a source whose every read succeeds with zero bytes, the
counter of the send loop never moves and the loop is still running after any number of
iterations. -/
theorem upload_loop_stalls (filename : String) :
    ∀ (fuel i : Nat) (msgs : List Msg),
      Client.upload.loop (fun _ => some []) (fun _ => none) filename 1 fuel i 0 msgs
        = none := by
  intro fuel
  induction fuel with
  | zero =>
    intro i msgs
    rw [Client.upload.loop, if_pos (by decide)]
  | succ fuel ih =>
    intro i msgs
    have hw : wrapInt64 (0 + ((([] : List Byte).take bufsize).length : Int)) = 0 := by decide
    unfold Client.upload.loop
    rw [if_pos (by decide)]
    simp only [hw]
    exact ih _ _

/-- C19, the claim fails: with the context live, the stream opened, the path valid and
every `data.Read` and `stream.Send` succeeding, `PostFile` and `PutFile` do not return nil,
because they do not return at all, when every read delivers zero bytes (declared size 1) and
when the `int64` counter wraps around (declared size `2^63 - 1`, reads of 4096 bytes):
whatever the number of iterations allowed, the call is still running. -/
theorem C19_upload_does_not_return :
    (fun fuel => Client.PostFile none none (some .InvalidArgument) (fun _ => some [])
        (fun _ => none) 1 "a.txt" fuel) = (fun _ => none)
    ∧ (fun fuel => Client.PutFile none none (some .InvalidArgument) (fun _ => some [])
        (fun _ => none) 1 "a.txt" fuel) = (fun _ => none)
    ∧ (fun fuel => Client.PostFile none none none (fun _ => some (List.replicate 4096 0))
        (fun _ => none) 9223372036854775807 "a.txt" fuel) = (fun _ => none)
    ∧ (fun fuel => Client.PutFile none none none (fun _ => some (List.replicate 4096 0))
        (fun _ => none) 9223372036854775807 "a.txt" fuel) = (fun _ => none) := by
  have hpath : filepath.Localize "a.txt" = some "a.txt" := by decide
  have hvalid : fs.ValidPath "a.txt" = true := by decide
  have hstall : ∀ (ack : Option Code) (fuel : Nat),
      Client.upload none none ack (fun _ => some []) (fun _ => none) 1 "a.txt" fuel
        = none := by
    intro ack fuel
    simp only [Client.upload, hpath, Option.getD_some, hvalid, Bool.not_true,
      Bool.false_eq_true, if_false, upload_loop_stalls "a.txt" fuel 0 [], Option.map_none']
  have hwrap : ∀ (ack : Option Code) (fuel : Nat),
      Client.upload none none ack (fun _ => some (List.replicate 4096 0)) (fun _ => none)
        9223372036854775807 "a.txt" fuel = none := by
    intro ack fuel
    simp only [Client.upload, hpath, Option.getD_some, hvalid, Bool.not_true,
      Bool.false_eq_true, if_false,
      upload_loop_overflow "a.txt" fuel 0 0 [] (by decide) (by decide) (by decide),
      Option.map_none']
  exact ⟨funext (hstall _), funext (hstall _), funext (hwrap _), funext (hwrap _)⟩

/-- The send loop of the client from a state with counter `sent ≥ 0`, when every read it
makes succeeds with at least one byte, every send succeeds and the declared size is at most
`2^63 - 4096`: it exits without error within `size - sent` iterations. -/
theorem upload_loop_returns_nil (reads : Nat → Option (List Byte))
    (sends : Nat → Option ClientErr) (filename : String) (size : Int)
    (hsend : ∀ i, sends i = none) (hsize : size ≤ 9223372036854771712) :
    ∀ (fuel i : Nat) (sent : Int) (msgs : List Msg), 0 ≤ sent → (size - sent).toNat ≤ fuel →
      (∀ k, sent + (countedBytes reads i k : Int) < size →
        ∃ b, reads (i + k) = some b ∧ 1 ≤ b.length) →
      ∃ res, Client.upload.loop reads sends filename size fuel i sent msgs = some res
        ∧ res.1 = none := by
  intro fuel
  induction fuel with
  | zero =>
    intro i sent msgs h0 hfuel _
    have hnot : ¬ sent < size := by omega
    exact ⟨(none, msgs), by rw [Client.upload.loop, if_neg hnot], rfl⟩
  | succ fuel ih =>
    intro i sent msgs h0 hfuel hread
    by_cases hlt : sent < size
    · obtain ⟨b, hb, hbpos⟩ := hread 0 (by simpa [countedBytes] using hlt)
      rw [Nat.add_zero] at hb
      have hlen : (b.take bufsize).length = min bufsize b.length := List.length_take _ _
      have hwrap : wrapInt64 (sent + ((b.take bufsize).length : Int))
          = sent + ((b.take bufsize).length : Int) := by
        rw [hlen]
        simp only [wrapInt64, bufsize]
        omega
      obtain ⟨res, hres, hnil⟩ := ih (i + 1) (sent + ((b.take bufsize).length : Int))
        (msgs ++ [⟨filename, b.take bufsize⟩]) (by omega)
        (by rw [hlen]; simp only [bufsize]; omega)
        (fun k hk => by
          have h := hread (k + 1) (by
            simp only [countedBytes, hb, Option.getD_some]
            push_cast
            omega)
          have hidx : i + (k + 1) = i + 1 + k := by omega
          rw [hidx] at h
          exact h)
      refine ⟨res, ?_, hnil⟩
      unfold Client.upload.loop
      rw [if_pos hlt]
      simp only [hb, hsend, hwrap]
      exact hres
    · exact ⟨(none, msgs), by rw [Client.upload.loop, if_neg hlt], rfl⟩

/-- C19 as amended. Gateway client upload result ignores the final acknowledgement: for
`Client.PostFile` and `Client.PutFile`, whenever the context is live, the stream opened,
the path valid, every `data.Read` the loop makes succeeds with at least one byte, every
`stream.Send` succeeds and the declared size is at most `2^63 - 4096`, the function returns
nil, within `max(size, 0)` iterations of its loop, whatever `CloseAndRecv` returns (`ack`):
an error status delivered only with the final acknowledgement is logged and is never the
function's result. -/
theorem C19_Client_upload_returns_nil (reads : Nat → Option (List Byte))
    (sends : Nat → Option ClientErr) (size : Int) (filename : String) (ack : Option Code)
    (hpath : filepath.Localize filename = some filename)
    (hread : ∀ j, (countedBytes reads 0 j : Int) < size →
      ∃ b, reads j = some b ∧ 1 ≤ b.length)
    (hsend : ∀ i, sends i = none) (hsize : size ≤ 9223372036854771712) :
    ∃ r, Client.PostFile none none ack reads sends size filename size.toNat = some r
      ∧ Client.PutFile none none ack reads sends size filename size.toNat = some r
      ∧ r.err = none ∧ r.closes = 1 ∧ r.ackLogged = ack.isSome := by
  have hvalid : fs.ValidPath filename = true := Localize_valid filename hpath
  obtain ⟨res, hres, hnil⟩ := upload_loop_returns_nil reads sends filename size hsend hsize
    size.toNat 0 0 [] (Int.le_refl 0) (by simp)
    (fun k hk => by
      have h := hread k (by simpa using hk)
      rw [Nat.zero_add]
      exact h)
  have hcall : Client.upload none none ack reads sends size filename size.toNat
      = some ⟨res.1, res.2, 1, ack.isSome⟩ := by
    simp [Client.upload, hpath, hvalid, hres]
  exact ⟨_, hcall, hcall, hnil, rfl, rfl⟩

/-- C19 as amended, on a three-byte upload to `a.txt` from a source holding exactly those
three bytes (its later reads fail, the loop never makes them), while `CloseAndRecv` returns
the server's `InvalidArgument`: the call returns nil. -/
theorem C19_Client_upload_returns_nil_witness :
    filepath.Localize "a.txt" = some "a.txt"
    ∧ fullReads [1, 2, 3] 1 = none
    ∧ Client.PostFile none none (some .InvalidArgument) (fullReads [1, 2, 3]) (fun _ => none)
        3 "a.txt" 3
      = some ⟨none, [⟨"a.txt", [1, 2, 3]⟩], 1, true⟩
    ∧ (∃ r, Client.PostFile none none (some .InvalidArgument) (fullReads [1, 2, 3])
          (fun _ => none) 3 "a.txt" (3 : Int).toNat = some r
        ∧ Client.PutFile none none (some .InvalidArgument) (fullReads [1, 2, 3])
          (fun _ => none) 3 "a.txt" (3 : Int).toNat = some r
        ∧ r.err = none ∧ r.closes = 1 ∧ r.ackLogged = (some Code.InvalidArgument).isSome) :=
  ⟨by decide, by decide, by decide,
    C19_Client_upload_returns_nil (fullReads [1, 2, 3]) (fun _ => none) 3 "a.txt"
      (some .InvalidArgument) (by decide)
      (fun j hj => by
        cases j with
        | zero => exact ⟨[1, 2, 3], by decide, by decide⟩
        | succ j =>
          have h3 : (((fullReads [1, 2, 3] 0).getD []).take bufsize).length = 3 := by decide
          simp only [countedBytes, h3] at hj
          push_cast at hj
          omega)
      (fun _ => rfl) (by decide)⟩

/-- C20. Empty upload stream: when the very first receive of engine `PostFile` or `PutFile`
fails, with end-of-input (a stream of zero messages) or with another error, a call started
with a live context returns `ErrReceiveFile`, which the facade reports as `DataLoss`, and
the filesystem is unchanged (nothing created, truncated or removed); and the gateway client
sends zero messages whenever the declared size is 0 (or negative), so the stream the engine
then sees is such an empty one. -/
theorem C20_empty_stream_is_a_receive_failure (env : Resolver) (ctx : Context)
    (writes : Nat → Option Nat) (fin : RecvEnd) (w : World)
    (entry : Option CtxErr) (opened ack : Option Code) (reads : Nat → Option (List Byte))
    (sends : Nat → Option ClientErr) (size : Int) (filename : String) (fuel : Nat)
    (hentry : ctx.entry = none) (hsize : size ≤ 0) :
    FileManager.PostFile env ctx writes ⟨[], fin⟩ w
        = (some ⟨"filemanager.PostFile", .ErrReceiveFile⟩, w)
    ∧ FileManager.PutFile env ctx writes ⟨[], fin⟩ w
        = (some ⟨"filemanager.UpdateFile", .ErrReceiveFile⟩, w)
    ∧ (serverAPI.PostFile (FileManager.PostFile env ctx writes ⟨[], fin⟩ w).1).status
        = some .DataLoss
    ∧ (serverAPI.PutFile (FileManager.PutFile env ctx writes ⟨[], fin⟩ w).1).status
        = some .DataLoss
    ∧ (∃ r, Client.PostFile entry opened ack reads sends size filename fuel = some r
        ∧ r.sent = [])
    ∧ (∃ r, Client.PutFile entry opened ack reads sends size filename fuel = some r
        ∧ r.sent = []) := by
  have hpost : FileManager.PostFile env ctx writes ⟨[], fin⟩ w
      = (some ⟨"filemanager.PostFile", .ErrReceiveFile⟩, w) := by
    simp [FileManager.PostFile, hentry]
  have hput : FileManager.PutFile env ctx writes ⟨[], fin⟩ w
      = (some ⟨"filemanager.UpdateFile", .ErrReceiveFile⟩, w) := by
    simp [FileManager.PutFile, hentry]
  have hloop : ∀ name, Client.upload.loop reads sends name size fuel 0 0 [] = some (none, []) := by
    intro name
    have hnot : ¬ (0 : Int) < size := by omega
    cases fuel <;> rw [Client.upload.loop, if_neg hnot]
  have hclient : ∃ r, Client.upload entry opened ack reads sends size filename fuel = some r
      ∧ r.sent = [] := by
    unfold Client.upload
    cases entry with
    | some e => exact ⟨_, rfl, rfl⟩
    | none =>
      cases opened with
      | some c => exact ⟨_, rfl, rfl⟩
      | none =>
        by_cases hv : fs.ValidPath ((filepath.Localize filename).getD "") = true
        · simp [hv, hloop]
        · simp [hv]
  refine ⟨hpost, hput, ?_, ?_, hclient, hclient⟩
  · rw [hpost]
    rfl
  · rw [hput]
    rfl

/-- C20 on the demo host: an empty stream leaves the demo filesystem as it is, and an
upload of declared size 0 to `a/b.txt` sends nothing. -/
theorem C20_empty_stream_is_a_receive_failure_witness :
    FileManager.PostFile demoHost Context.live (fun _ => none) ⟨[], .eof⟩ demoWorld
        = (some ⟨"filemanager.PostFile", .ErrReceiveFile⟩, demoWorld)
    ∧ FileManager.PutFile demoHost Context.live (fun _ => none) ⟨[], .eof⟩ demoWorld
        = (some ⟨"filemanager.UpdateFile", .ErrReceiveFile⟩, demoWorld)
    ∧ (serverAPI.PostFile (FileManager.PostFile demoHost Context.live (fun _ => none)
        ⟨[], .eof⟩ demoWorld).1).status = some .DataLoss
    ∧ (serverAPI.PutFile (FileManager.PutFile demoHost Context.live (fun _ => none)
        ⟨[], .eof⟩ demoWorld).1).status = some .DataLoss
    ∧ (∃ r, Client.PostFile none none none (fullReads []) (fun _ => none) 0 "a/b.txt" 0
          = some r ∧ r.sent = [])
    ∧ (∃ r, Client.PutFile none none none (fullReads []) (fun _ => none) 0 "a/b.txt" 0
          = some r ∧ r.sent = []) :=
  C20_empty_stream_is_a_receive_failure demoHost Context.live (fun _ => none) .eof demoWorld
    none none none (fullReads []) (fun _ => none) 0 "a/b.txt" 0 rfl (by decide)

/-! ## The bound of the upload loop -/

/-- C21, the claim fails: with the declared size `s = 2^63 - 1` and a source whose every
read returns 4096 bytes, the send loop has not terminated after `max(s, 0)` iterations
(the `int64` counter wraps around at `2^63` instead of reaching `s`), and so `PostFile` and
`PutFile` have not returned. -/
theorem C21_counter_wraps_at_max_size :
    (List.replicate 4096 (0 : Byte)).length = 4096
    ∧ Client.upload.loop (fun _ => some (List.replicate 4096 0)) (fun _ => none) "a.txt"
        9223372036854775807 9223372036854775807 0 0 [] = none
    ∧ Client.PostFile none none none (fun _ => some (List.replicate 4096 0)) (fun _ => none)
        9223372036854775807 "a.txt" 9223372036854775807 = none
    ∧ Client.PutFile none none none (fun _ => some (List.replicate 4096 0)) (fun _ => none)
        9223372036854775807 "a.txt" 9223372036854775807 = none := by
  have hloop := upload_loop_overflow "a.txt" 9223372036854775807 0 0 [] (by decide)
    (by decide) (by decide)
  have hpath : filepath.Localize "a.txt" = some "a.txt" := by decide
  have hvalid : fs.ValidPath "a.txt" = true := by decide
  have hcall : Client.upload none none none (fun _ => some (List.replicate 4096 0))
      (fun _ => none) 9223372036854775807 "a.txt" 9223372036854775807 = none := by
    simp only [Client.upload, hpath, Option.getD_some, hvalid, Bool.not_true,
      Bool.false_eq_true, if_false, hloop, Option.map_none']
  exact ⟨List.length_replicate _ _, hloop, hcall, hcall⟩

/-- The messages built from `k` reads are `k` messages. -/
theorem readMsgs_length (reads : Nat → Option (List Byte)) (filename : String) :
    ∀ (k i : Nat), (readMsgs reads filename i k).length = k := by
  intro k
  induction k with
  | zero => intro i; rfl
  | succ k ih => intro i; simp [readMsgs, ih]

/-- The messages built from `k` reads carry the bytes those reads delivered. -/
theorem sentBytes_readMsgs (reads : Nat → Option (List Byte)) (filename : String) :
    ∀ (k i : Nat), sentBytes (readMsgs reads filename i k) = suppliedBytes reads i k := by
  intro k
  induction k with
  | zero => intro i; rfl
  | succ k ih =>
    intro i
    have h := ih (i + 1)
    simp only [sentBytes] at h
    simp only [sentBytes, readMsgs, suppliedBytes, List.map_cons, List.sum_cons, h]

/-- The send loop of the client from a state with counter `sent ≥ 0`, when every successful
read returns between 1 and 4096 bytes and the declared size is at most `2^63 - 4096`: it
exits within `size - sent` iterations; when it exits without error it has made some `k` of
them, has sent exactly what the `k` reads delivered, the counter has reached the size, and
unless `k = 0` it has passed it by less than 4096. -/
theorem upload_loop_bound (reads : Nat → Option (List Byte))
    (sends : Nat → Option ClientErr) (filename : String) (size : Int)
    (hread : ∀ i b, reads i = some b → 1 ≤ b.length ∧ b.length ≤ 4096)
    (hsize : size ≤ 9223372036854771712) :
    ∀ (fuel i : Nat) (sent : Int) (msgs : List Msg), 0 ≤ sent → (size - sent).toNat ≤ fuel →
      ∃ res, Client.upload.loop reads sends filename size fuel i sent msgs = some res
        ∧ res.2.length ≤ msgs.length + (size - sent).toNat
        ∧ (res.1 = none → ∃ k, k ≤ (size - sent).toNat
            ∧ res.2 = msgs ++ readMsgs reads filename i k
            ∧ size ≤ sent + (suppliedBytes reads i k : Int)
            ∧ (k = 0 ∨ sent + (suppliedBytes reads i k : Int) < size + 4096)) := by
  intro fuel
  induction fuel with
  | zero =>
    intro i sent msgs h0 hfuel
    have hnot : ¬ sent < size := by omega
    refine ⟨(none, msgs), by rw [Client.upload.loop, if_neg hnot], by simp, ?_⟩
    intro _
    exact ⟨0, Nat.zero_le _, by simp [readMsgs], by simp [suppliedBytes]; omega, Or.inl rfl⟩
  | succ fuel ih =>
    intro i sent msgs h0 hfuel
    by_cases hlt : sent < size
    · cases hr : reads i with
      | none =>
        refine ⟨(some .other, msgs), ?_, by simp, ?_⟩
        · unfold Client.upload.loop
          rw [if_pos hlt, hr]
        · intro h
          cases h
      | some b =>
        obtain ⟨hb1, hb2⟩ := hread i b hr
        have htake : b.take bufsize = b := List.take_of_length_le (by simpa [bufsize] using hb2)
        cases hs : sends i with
        | some e =>
          refine ⟨(some e, msgs), ?_, by simp, ?_⟩
          · unfold Client.upload.loop
            rw [if_pos hlt, hr]
            simp only [hs]
          · intro h
            cases h
        | none =>
          have hwrap : wrapInt64 (sent + (b.length : Int)) = sent + (b.length : Int) := by
            simp only [wrapInt64]
            omega
          obtain ⟨res, hres, hlen, hspec⟩ := ih (i + 1) (sent + (b.length : Int))
            (msgs ++ [⟨filename, b⟩]) (by omega) (by omega)
          refine ⟨res, ?_, ?_, ?_⟩
          · unfold Client.upload.loop
            rw [if_pos hlt, hr]
            simp only [hs, htake, hwrap]
            exact hres
          · simp only [List.length_append, List.length_singleton] at hlen
            omega
          · intro hnil
            obtain ⟨k, hk, hmsgs, hge, hup⟩ := hspec hnil
            refine ⟨k + 1, by omega, ?_, ?_, Or.inr ?_⟩
            · rw [hmsgs]
              simp [readMsgs, hr]
            · simp only [suppliedBytes, hr, Option.getD_some]
              push_cast
              omega
            · simp only [suppliedBytes, hr, Option.getD_some]
              push_cast
              rcases hup with hk0 | hup
              · subst hk0
                simp only [suppliedBytes]
                push_cast
                omega
              · omega
    · refine ⟨(none, msgs), by rw [Client.upload.loop, if_neg hlt], by simp, ?_⟩
      intro _
      exact ⟨0, Nat.zero_le _, by simp [readMsgs], by simp [suppliedBytes]; omega, Or.inl rfl⟩

/-- C21 as amended. For every data source and declared size `s ≤ 2^63 - 4096` (so that the
`int64` counter cannot overflow), if each successful read returns between 1 and 4096 bytes
then the send loop of `Client.PostFile`/`Client.PutFile` terminates after at most
`max(s, 0)` iterations, whatever the reads and sends do; and when it exits without error
the messages sent are exactly what the reads made delivered, so the total number of bytes
sent `T` is the number of bytes the source supplied, it satisfies `s ≤ T < s + 4096` for
`s > 0` and `T = 0` for `s ≤ 0`, and `T = s` exactly when the source supplied no more than
`s` bytes. On a valid path this loop is the whole of what the two functions return. -/
theorem C21_upload_loop_bound (reads : Nat → Option (List Byte))
    (sends : Nat → Option ClientErr) (filename : String) (size : Int)
    (hread : ∀ i b, reads i = some b → 1 ≤ b.length ∧ b.length ≤ 4096)
    (hsize : size ≤ 9223372036854771712) :
    ∃ res, Client.upload.loop reads sends filename size size.toNat 0 0 [] = some res
      ∧ res.2.length ≤ size.toNat
      ∧ (res.1 = none →
          res.2 = readMsgs reads filename 0 res.2.length
          ∧ sentBytes res.2 = suppliedBytes reads 0 res.2.length
          ∧ (0 < size → size ≤ (sentBytes res.2 : Int) ∧ (sentBytes res.2 : Int) < size + 4096)
          ∧ (size ≤ 0 → sentBytes res.2 = 0)
          ∧ (0 < size →
              ((sentBytes res.2 : Int) = size
                ↔ (suppliedBytes reads 0 res.2.length : Int) ≤ size)))
      ∧ (filepath.Localize filename = some filename → ∀ ack : Option Code,
          Client.PostFile none none ack reads sends size filename size.toNat
              = some ⟨res.1, res.2, 1, ack.isSome⟩
          ∧ Client.PutFile none none ack reads sends size filename size.toNat
              = some ⟨res.1, res.2, 1, ack.isSome⟩) := by
  obtain ⟨res, hres, hlen, hspec⟩ :=
    upload_loop_bound reads sends filename size hread hsize size.toNat 0 0 [] (Int.le_refl 0)
      (by simp)
  refine ⟨res, hres, by simpa using hlen, ?_, ?_⟩
  · intro hnil
    obtain ⟨k, hk, hmsgs, hge, hup⟩ := hspec hnil
    simp only [List.nil_append] at hmsgs
    have hk2 : res.2.length = k := by rw [hmsgs, readMsgs_length]
    have hT : sentBytes res.2 = suppliedBytes reads 0 k := by
      rw [hmsgs, sentBytes_readMsgs]
    rw [hk2, hT]
    refine ⟨hmsgs, rfl, ?_, ?_, ?_⟩
    · intro hpos
      rcases hup with hk0 | hup
      · subst hk0
        simp only [suppliedBytes] at hge
        omega
      · omega
    · intro hneg
      have hk0 : k = 0 := by omega
      subst hk0
      rfl
    · intro hpos
      constructor
      · intro h
        omega
      · intro h
        omega
  · intro hpath ack
    have hvalid : fs.ValidPath filename = true := Localize_valid filename hpath
    have hcall : Client.upload none none ack reads sends size filename size.toNat
        = some ⟨res.1, res.2, 1, ack.isSome⟩ := by
      simp [Client.upload, hpath, hvalid, hres]
    exact ⟨hcall, hcall⟩

/-- C21 as amended, on a source delivering three bytes per read with the declared size 5:
the loop exits after two iterations, within `max(5, 0) = 5`, having sent `T = 6` bytes, and
`5 ≤ 6 < 5 + 4096`. -/
theorem C21_upload_loop_bound_witness :
    Client.upload.loop (fun _ => some [1, 2, 3]) (fun _ => none) "a.txt" 5 5 0 0 []
        = some (none, [⟨"a.txt", [1, 2, 3]⟩, ⟨"a.txt", [1, 2, 3]⟩])
    ∧ sentBytes [⟨"a.txt", [1, 2, 3]⟩, ⟨"a.txt", [1, 2, 3]⟩] = 6
    ∧ ∃ res, Client.upload.loop (fun _ => some [1, 2, 3]) (fun _ => none) "a.txt" 5
          (5 : Int).toNat 0 0 [] = some res
        ∧ res.2.length ≤ (5 : Int).toNat
        ∧ (res.1 = none →
            res.2 = readMsgs (fun _ => some [1, 2, 3]) "a.txt" 0 res.2.length
            ∧ sentBytes res.2 = suppliedBytes (fun _ => some [1, 2, 3]) 0 res.2.length
            ∧ ((0 : Int) < 5 →
                (5 : Int) ≤ (sentBytes res.2 : Int) ∧ (sentBytes res.2 : Int) < 5 + 4096)
            ∧ ((5 : Int) ≤ 0 → sentBytes res.2 = 0)
            ∧ ((0 : Int) < 5 →
                ((sentBytes res.2 : Int) = 5
                  ↔ (suppliedBytes (fun _ => some [1, 2, 3]) 0 res.2.length : Int) ≤ 5)))
        ∧ (filepath.Localize "a.txt" = some "a.txt" → ∀ ack : Option Code,
            Client.PostFile none none ack (fun _ => some [1, 2, 3]) (fun _ => none) 5 "a.txt"
                (5 : Int).toNat = some ⟨res.1, res.2, 1, ack.isSome⟩
            ∧ Client.PutFile none none ack (fun _ => some [1, 2, 3]) (fun _ => none) 5 "a.txt"
                (5 : Int).toNat = some ⟨res.1, res.2, 1, ack.isSome⟩) :=
  ⟨by decide, by decide,
    C21_upload_loop_bound (fun _ => some [1, 2, 3]) (fun _ => none) "a.txt" 5
      (fun _ b hb => by
        have hb2 : b = [1, 2, 3] := (Option.some.inj hb).symm
        subst hb2
        decide)
      (by decide)⟩

/-- A source that goes on delivering 4096 bytes per read, with the declared size 4096: the
loop exits after the first read with exactly 4096 bytes sent. The bytes supplied are the
bytes of the reads made, not what the source could still deliver. -/
theorem upload_loop_exact_on_buffer_boundary :
    ∃ res, Client.upload.loop (fun _ => some (List.replicate 4096 0)) (fun _ => none) "a.txt"
          4096 1 0 0 [] = some res
      ∧ res.1 = none ∧ res.2.length = 1 ∧ sentBytes res.2 = 4096 := by
  have hlen : (((List.replicate 4096 (0 : Byte)).take bufsize).length : Int) = 4096 := by
    simp only [List.length_take, List.length_replicate, bufsize]
    rfl
  have hw : wrapInt64 (0 + 4096) = 4096 := by decide
  refine ⟨(none, [⟨"a.txt", (List.replicate 4096 0).take bufsize⟩]), ?_, rfl, rfl, ?_⟩
  · unfold Client.upload.loop
    rw [if_pos (by decide)]
    simp only [hlen, hw, List.nil_append]
    rw [Client.upload.loop, if_neg (by decide)]
  · simp only [sentBytes, List.map_cons, List.map_nil, List.sum_cons, List.sum_nil,
      List.length_take, List.length_replicate, bufsize]
    rfl
